import Mathlib

/-!
# Verification of the pack-stack card/boundary detector

A shallow embedding of the Rust sources (`src/data.rs`, `src/edge.rs`,
`src/card.rs`) of the `pack-stack` repository, together with proofs about
the embedded definitions.

Conventions used throughout:

* `usize`/`u32` coordinates are embedded as `Nat`; every subtraction that can
  underflow in the source (where Rust would panic in debug builds, or wrap and
  then immediately panic inside a bounds check in release builds) is embedded
  as an explicit checked operation returning `Except String`.
* Rust `assert!` calls are embedded as `Except String` returns.
* `f32` values are embedded as exact rationals together with an explicit
  IEEE-754 binary32 round-to-nearest-even rounding function `roundF32` that is
  applied after every arithmetic operation, exactly as the hardware does for
  normal (non-overflowing, non-subnormal) values, which covers every value
  manipulated by this program's numeric code.
* pixel buffers (`RgbaImage`) are embedded as total functions from coordinates
  to pixels; `put_pixel` in the scoring code of `card.rs` (where out-of-range
  writes decide a claim) is bounds-checked, mirroring the `image` crate.
-/

/-! ## IEEE-754 binary32 emulation over ℚ

The standard rational arithmetic operations of this Mathlib version are
`@[irreducible]`, so the emulation is built on kernel-computable clones
(`qadd`, `qsub`, `qmul`, `qdiv`, defined through `mkRat`), each proved equal
to the standard operation for use in symbolic proofs. -/

/-- Kernel-computable rational addition (equal to `+`, see `qadd_eq`). -/
def qadd (a b : ℚ) : ℚ := mkRat (a.num * b.den + b.num * a.den) (a.den * b.den)

/-- Kernel-computable rational subtraction (equal to `-`, see `qsub_eq`). -/
def qsub (a b : ℚ) : ℚ := mkRat (a.num * b.den - b.num * a.den) (a.den * b.den)

/-- Kernel-computable rational multiplication (equal to `*`, see `qmul_eq`). -/
def qmul (a b : ℚ) : ℚ := mkRat (a.num * b.num) (a.den * b.den)

/-- Kernel-computable rational division (equal to `/`, see `qdiv_eq`;
division by zero yields zero, as for `Rat.div`). -/
def qdiv (a b : ℚ) : ℚ :=
  if b.num < 0 then mkRat (-(a.num * b.den)) (a.den * b.num.natAbs)
  else mkRat (a.num * b.den) (a.den * b.num.natAbs)

theorem qadd_eq (a b : ℚ) : qadd a b = a + b := by
  conv_rhs => rw [← Rat.num_div_den a, ← Rat.num_div_den b]
  rw [qadd, Rat.mkRat_eq_div]
  have ha : (a.den : ℚ) ≠ 0 := by positivity
  have hb : (b.den : ℚ) ≠ 0 := by positivity
  push_cast
  field_simp

theorem qsub_eq (a b : ℚ) : qsub a b = a - b := by
  conv_rhs => rw [← Rat.num_div_den a, ← Rat.num_div_den b]
  rw [qsub, Rat.mkRat_eq_div]
  have ha : (a.den : ℚ) ≠ 0 := by positivity
  have hb : (b.den : ℚ) ≠ 0 := by positivity
  push_cast
  field_simp
  ring

theorem qmul_eq (a b : ℚ) : qmul a b = a * b := by
  conv_rhs => rw [← Rat.num_div_den a, ← Rat.num_div_den b]
  rw [qmul, Rat.mkRat_eq_div]
  have ha : (a.den : ℚ) ≠ 0 := by positivity
  have hb : (b.den : ℚ) ≠ 0 := by positivity
  push_cast
  field_simp

theorem qdiv_eq (a b : ℚ) : qdiv a b = a / b := by
  rcases eq_or_ne b 0 with rfl | hb
  · have h0 : ((0 : ℚ).num : Int) = 0 := rfl
    simp [qdiv, h0, Rat.mkRat_eq_div]
  · conv_rhs => rw [← Rat.num_div_den a, ← Rat.num_div_den b]
    have hbn0 : b.num ≠ 0 := Rat.num_ne_zero.mpr hb
    have ha : (a.den : ℚ) ≠ 0 := by positivity
    have hbd : (b.den : ℚ) ≠ 0 := by positivity
    have hbn : (b.num : ℚ) ≠ 0 := by exact_mod_cast hbn0
    rcases lt_or_le b.num 0 with hneg | hpos
    · rw [qdiv, if_pos hneg, Rat.mkRat_eq_div]
      push_cast [Int.cast_natAbs]
      rw [abs_of_neg (show (b.num : ℚ) < 0 by exact_mod_cast hneg)]
      field_simp
    · rw [qdiv, if_neg (not_lt.mpr hpos), Rat.mkRat_eq_div]
      push_cast [Int.cast_natAbs]
      rw [abs_of_nonneg (show (0 : ℚ) ≤ (b.num : ℚ) by exact_mod_cast hpos)]
      field_simp

/-- `2 ^ e` over ℚ for an integer exponent (kernel-computable). -/
def pow2 (e : Int) : ℚ :=
  if 0 ≤ e then ((2 ^ e.toNat : ℕ) : ℚ) else mkRat 1 (2 ^ (-e).toNat)

/-- Find the binade of a positive rational: the largest `e` (≥ -160) with
`2 ^ e ≤ q`, by bounded upward search.  `tp` is `2 ^ (e + 1)`. -/
def expSearchGo (q : ℚ) : Nat → Int → ℚ → Int
  | 0, e, _ => e
  | n + 1, e, tp => if q < tp then e else expSearchGo q n (e + 1) (qmul 2 tp)

/-- Binade of a positive rational (largest `e` with `2 ^ e ≤ q`). -/
def expSearch (q : ℚ) : Int := expSearchGo q 320 (-160) (pow2 (-159))

/-- Round a positive rational to the nearest binary32 value (24-bit
significand, round half to even); exact for the normal range used by this
program. -/
def roundPos (q : ℚ) : ℚ :=
  let e := expSearch q
  let scale := pow2 (e - 23)
  let m := qdiv q scale
  let n : Int := m.floor
  let frac := qsub m (n : ℚ)
  if frac < mkRat 1 2 then qmul (n : ℚ) scale
  else if mkRat 1 2 < frac then qmul ((n + 1 : Int) : ℚ) scale
  else if n % 2 = 0 then qmul (n : ℚ) scale
  else qmul ((n + 1 : Int) : ℚ) scale

/-- Round any rational to the nearest binary32 value. -/
def roundF32 (q : ℚ) : ℚ :=
  if q = 0 then 0 else if q < 0 then -(roundPos (-q)) else roundPos q

/-- `f32` addition: exact rational addition followed by binary32 rounding. -/
def f32add (a b : ℚ) : ℚ := roundF32 (qadd a b)

/-- `f32` subtraction. -/
def f32sub (a b : ℚ) : ℚ := roundF32 (qsub a b)

/-- `f32` multiplication. -/
def f32mul (a b : ℚ) : ℚ := roundF32 (qmul a b)

/-- `f32` division. -/
def f32div (a b : ℚ) : ℚ := roundF32 (qdiv a b)

/-- A Rust `f32` decimal literal: the nearest binary32 value to the written
decimal. -/
def f32lit (q : ℚ) : ℚ := roundF32 q

/-- `usize as f32` / `u32 as f32` (round to nearest; exact below `2 ^ 24`). -/
def f32ofNat (n : Nat) : ℚ := roundF32 (n : ℚ)

/-- `f32::consts::PI`: the binary32 value nearest to π. -/
def pi32 : ℚ := mkRat 13176795 4194304

/-! ## Data model (`src/data.rs`) -/

/-- `pub type Point = [usize; 2]` — `(x, y)`. -/
abbrev Point := Nat × Nat

/-- One RGBA pixel (`image::Rgba<u8>`); channels kept as `Nat` (each < 256 in
real frames, though nothing below depends on that bound). -/
structure Pixel where
  r : Nat
  g : Nat
  b : Nat
  a : Nat
deriving DecidableEq, Repr

/-- `pub struct Rectangle(pub [Point; 2])` — `tl` is `self.0[0]`,
`br` is `self.0[1]`. -/
structure Rectangle where
  tl : Point
  br : Point
deriving DecidableEq, Repr

namespace Rectangle

/-- `Rectangle::new` — the `assert!` that `bottom_right` is strictly down and
to the right of `top_left` is embedded as an `Except` failure. -/
def new (top_left bottom_right : Point) : Except String Rectangle :=
  if top_left.1 < bottom_right.1 ∧ top_left.2 < bottom_right.2 then
    Except.ok ⟨top_left, bottom_right⟩
  else
    Except.error "bottom right must be down and to the right of top left"

/-- `Rectangle::from_dimensions`. -/
def from_dimensions (width height : Nat) : Except String Rectangle :=
  new (0, 0) (width, height)

/-- `Rectangle::width`. -/
def width (r : Rectangle) : Nat := r.br.1 - r.tl.1

/-- `Rectangle::height`. -/
def height (r : Rectangle) : Nat := r.br.2 - r.tl.2

/-- `Rectangle::grow` — the `assert!(n <= top_left)` is an `Except` failure;
the subsequent `Rectangle::new` check always passes but is kept. -/
def grow (r : Rectangle) (n : Nat) : Except String Rectangle :=
  if n ≤ r.tl.1 ∧ n ≤ r.tl.2 then
    new (r.tl.1 - n, r.tl.2 - n) (r.br.1 + n, r.br.2 + n)
  else
    Except.error "cannot grow beyond (0, 0)"

/-- `Rectangle::shrink` — both the `assert!(n <= bottom_right)` and the
`Rectangle::new` assertion can fail. -/
def shrink (r : Rectangle) (n : Nat) : Except String Rectangle :=
  if n ≤ r.br.1 ∧ n ≤ r.br.2 then
    new (r.tl.1 + n, r.tl.2 + n) (r.br.1 - n, r.br.2 - n)
  else
    Except.error "cannot shring beyong (0, 0)"

/-- `Rectangle::contains` (strict interior containment, returns `bool`). -/
def contains (r other : Rectangle) : Bool :=
  r.tl.1 < other.tl.1 && r.tl.2 < other.tl.2 && other.br.1 < r.br.1 &&
    other.br.2 < r.br.2

end Rectangle

/-- `usize::MAX` on the crate's deployment target: `lib.rs` gates its
platform module on `target_arch = "wasm32"`, where `usize` is 32 bits. -/
def usizeMax : Nat := 4294967295

/-- Checked `u32`/`usize` subtraction: Rust panics on underflow in debug
builds (and in release builds the wrapped huge value immediately aborts the
subsequent bounds-checked pixel write). -/
def checkedSub (a b : Nat) : Except String Nat :=
  if b ≤ a then Except.ok (a - b) else Except.error "attempt to subtract with overflow"

/-- Checked `usize` addition: Rust panics on overflow past `usize::MAX` in
debug builds (release builds wrap, and every wrapped value below either trips
the `Rectangle::new` assertion or escapes the clamp bound at once). -/
def checkedAdd (a b : Nat) : Except String Nat :=
  if a + b ≤ usizeMax then Except.ok (a + b)
  else Except.error "attempt to add with overflow"

/-- `fn clamp_sub(value, n, min)` — `if n + min > value { min } else { value - n }`;
the comparison's `n + min` is a `usize` addition that can overflow. -/
def clamp_sub (value n minv : Nat) : Except String Nat := do
  let s ← checkedAdd n minv
  pure (if value < s then minv else value - n)

/-- `fn clamp_add(value, n, max)` — `min(value + n + 1, max) - 1`, each
`usize` operation checked: `value + n` and `+ 1` can overflow, and the final
`- 1` underflows when `max = 0`. -/
def clamp_add (value n maxv : Nat) : Except String Nat := do
  let s1 ← checkedAdd value n
  let s2 ← checkedAdd s1 1
  checkedSub (min s2 maxv) 1

namespace Rectangle

/-- `Rectangle::clamped_grow` — clamps each coordinate toward `rect` (the four
clamp calls evaluated left to right as in the source) and then runs the
`Rectangle::new` assertion. -/
def clamped_grow (r : Rectangle) (n : Nat) (rect : Rectangle) :
    Except String Rectangle := do
  let a ← clamp_sub r.tl.1 n rect.tl.1
  let b ← clamp_sub r.tl.2 n rect.tl.2
  let c ← clamp_add r.br.1 n rect.br.1
  let d ← clamp_add r.br.2 n rect.br.2
  new (a, b) (c, d)

/-- `Rectangle::clamped_shrink` — clamps each coordinate toward `rect` and then
runs the `Rectangle::new` assertion (which can fail for large `n`). -/
def clamped_shrink (r : Rectangle) (n : Nat) (rect : Rectangle) :
    Except String Rectangle := do
  let a ← clamp_add r.tl.1 n rect.br.1
  let b ← clamp_add r.tl.2 n rect.br.2
  let c ← clamp_sub r.br.1 n rect.tl.1
  let d ← clamp_sub r.br.2 n rect.tl.2
  new (a, b) (c, d)

end Rectangle

/-! ## Frames

`image::RgbaImage` is embedded as a total function from coordinates to pixels.
`get_pixel` is embedded as plain application (every read this development
reasons about is within the frame, where the `image` crate behaves the same
way); `put_pixel` is embedded bounds-checked where the scoring code of
`card.rs` can leave the frame (deciding claims about failures), and as a plain
functional update inside hysteresis, whose writes are proved to stay inside
the process extent. -/

/-- A frame: pixels addressed by `(x, y)`. -/
abbrev Image := Nat → Nat → Pixel

/-- Functional update of a single pixel (`put_pixel` without bounds check). -/
def updImg (img : Image) (x y : Nat) (c : Pixel) : Image :=
  fun u v => if u = x ∧ v = y then c else img u v

/-- `get_pixel`. -/
def getPixel (img : Image) (x y : Nat) : Pixel := img x y

/-- `put_pixel` with the `image` crate's bounds check (panic embeds as
`Except.error`). -/
def checkedPut (w h : Nat) (img : Image) (x y : Nat) (c : Pixel) :
    Except String Image :=
  if x < w ∧ y < h then Except.ok (updImg img x y c)
  else Except.error "Image index out of bounds"

/-! ## Detection windows (`src/edge.rs`) -/

/-- `RectangleWindow`. -/
structure RectangleWindow where
  rectangle : Rectangle
deriving Repr

/-- `RectangleInRectangleWindow` (window-frame shaped detection window). -/
structure RectangleInRectangleWindow where
  outer : Rectangle
  inner : Rectangle
deriving Repr

/-- `RectangleInRectangleWindow::new` — the `assert!(outer.contains(&inner))`
is an `Except` failure. -/
def RectangleInRectangleWindow.new (outer inner : Rectangle) :
    Except String RectangleInRectangleWindow :=
  if outer.contains inner then Except.ok ⟨outer, inner⟩
  else Except.error "outer must contain inner"

/-- One step of `RectangleWindowIterator::next`: from the just-emitted point to
the next state. -/
def rwStep (r : Rectangle) (p : Point) : Option Point :=
  if p.1 = r.br.1 - 1 then
    if p.2 = r.br.2 - 1 then none else some (r.tl.1, p.2 + 1)
  else some (p.1 + 1, p.2)

/-- One step of `RectangleInRectangleWindowIterator::next`. -/
def ririStep (wd : RectangleInRectangleWindow) (p : Point) : Option Point :=
  if p.1 = wd.inner.tl.1 - 1 ∧ wd.inner.tl.2 ≤ p.2 ∧ p.2 < wd.inner.br.2 then
    some (wd.inner.br.1, p.2)
  else if p.1 = wd.outer.br.1 - 1 then
    if p.2 = wd.outer.br.2 - 1 then none else some (wd.outer.tl.1, p.2 + 1)
  else some (p.1 + 1, p.2)

/-- Unfold a cursor-style iterator into the list of points it yields; `fuel`
bounds the number of steps (always chosen at least the number of yielded
points plus one, so the embedded lists match the Rust iterators exactly). -/
def iterFuel (step : Point → Option Point) : Nat → Option Point → List Point
  | 0, _ => []
  | _ + 1, none => []
  | fuel + 1, some p => p :: iterFuel step fuel (step p)

/-- `RectangleWindow::gradient` as a list. -/
def RectangleWindow.gradient (w : RectangleWindow) : List Point :=
  iterFuel (rwStep w.rectangle)
    (w.rectangle.width * w.rectangle.height + 1) (some w.rectangle.tl)

/-- `RectangleWindow::process` — iterate the rectangle shrunk by 1. -/
def RectangleWindow.process (w : RectangleWindow) :
    Except String (List Point) := do
  let r ← w.rectangle.shrink 1
  pure (RectangleWindow.gradient ⟨r⟩)

/-- `RectangleInRectangleWindow::gradient` as a list. -/
def RectangleInRectangleWindow.gradient (wd : RectangleInRectangleWindow) :
    List Point :=
  iterFuel (ririStep wd) (wd.outer.width * wd.outer.height + 1)
    (some wd.outer.tl)

/-- `RectangleInRectangleWindow::process` — a new frame window with the outer
rectangle shrunk by 1 and the inner rectangle grown by 1 (built as a plain
struct literal in the source, so no containment assertion runs here). -/
def RectangleInRectangleWindow.process (wd : RectangleInRectangleWindow) :
    Except String (List Point) := do
  let o ← wd.outer.shrink 1
  let i ← wd.inner.grow 1
  pure (RectangleInRectangleWindow.gradient ⟨o, i⟩)

/-- The `Window` trait: a polymorphic source of the two point sequences. -/
class CWindow (W : Type) where
  gradientPts : W → List Point
  processPts : W → Except String (List Point)

instance : CWindow RectangleWindow where
  gradientPts := RectangleWindow.gradient
  processPts := RectangleWindow.process

instance : CWindow RectangleInRectangleWindow where
  gradientPts := RectangleInRectangleWindow.gradient
  processPts := RectangleInRectangleWindow.process

/-! ## Canny edge engine (`src/edge.rs`) -/

/-- Pointwise update of a flat buffer embedded as a total function. -/
def updF {α : Type} (f : Nat → α) (i : Nat) (v : α) : Nat → α :=
  fun j => if j = i then v else f j

/-- Grayscale conversion. Modelled from the `image` crate (an external
dependency of this repository): RGBA pixels convert to luma by a fixed
BT.709-style weighting of the colour channels, ignoring alpha.  Every proof
below uses only that a frame whose colour channels are all zero has zero
luminance everywhere, which holds for any such weighting. -/
def luma (p : Pixel) : Nat := (2126 * p.r + 7152 * p.g + 722 * p.b) / 10000

/-- The cached grayscale view `detect` builds before running the passes. -/
def toGray (img : Image) : Nat → Nat → Nat := fun x y => luma (img x y)

/-- `HORIZONTAL_SOBEL`. -/
def sobelH : List Int := [-1, 0, 1, -2, 0, 2, -1, 0, 1]

/-- `VERTICAL_SOBEL`. -/
def sobelV : List Int := [-1, -2, -1, 0, 0, 0, 1, 2, 1]

/-- `fn accumulate(acc, pixel, weight)`. -/
def accumulate (acc : Int) (pixel : Nat) (weight : Int) : Int :=
  acc + (pixel : Int) * weight

/-- `fn clamp(x: i32) -> i16` — saturate to the signed-16-bit range. -/
def clampI16 (x : Int) : Int :=
  if x < 32767 then (if -32768 < x then x else -32768) else 32767

/-- `i16 as f32` (exact: |value| ≤ 32768 < 2^24). -/
def int2f32 (i : Int) : ℚ := roundF32 (i : ℚ)

/-- The two 3×3 Sobel accumulations of `fn gradient` at one point, with the
replicate-border index clamping written exactly as in the source:
`min(width + width - 1, max(width, width + x + k_x - k_width / 2)) - width`. -/
def kernelAt (width height : Nat) (gray : Nat → Nat → Nat) (x y : Nat) :
    Int × Int :=
  (List.range 3).foldl
    (fun acc ky =>
      let y_p := min (height + height - 1) (max height (height + y + ky - 1)) -
        height
      (List.range 3).foldl
        (fun (acc : Int × Int) kx =>
          let x_p :=
            min (width + width - 1) (max width (width + x + kx - 1)) - width
          let p := gray x_p y_p
          (accumulate acc.1 p (sobelH.getD (ky * 3 + kx) 0),
            accumulate acc.2 p (sobelV.getD (ky * 3 + kx) 0)))
        acc)
    (0, 0)

/-- `fn gradient`: for every gradient-extent point in order, store the
clamped Sobel responses and their squared-sum magnitude (`h*h + v*v` in
`f32`). -/
def gradientPass (width height : Nat) (gray : Nat → Nat → Nat) :
    List Point → (Nat → Int) → (Nat → Int) → (Nat → ℚ) →
    (Nat → Int) × (Nat → Int) × (Nat → ℚ)
  | [], gxb, gyb, fb => (gxb, gyb, fb)
  | p :: ps, gxb, gyb, fb =>
    gradientPass width height gray ps
      (updF gxb (p.2 * width + p.1)
        (clampI16 (kernelAt width height gray p.1 p.2).1))
      (updF gyb (p.2 * width + p.1)
        (clampI16 (kernelAt width height gray p.1 p.2).2))
      (updF fb (p.2 * width + p.1)
        (f32add
          (f32mul (int2f32 (clampI16 (kernelAt width height gray p.1 p.2).1))
            (int2f32 (clampI16 (kernelAt width height gray p.1 p.2).1)))
          (f32mul (int2f32 (clampI16 (kernelAt width height gray p.1 p.2).2))
            (int2f32 (clampI16 (kernelAt width height gray p.1 p.2).2)))))

/-- `0.1963f32`. -/
def lit0_1963 : ℚ := f32lit (mkRat 1963 10000)

/-- `0.9817f32`. -/
def lit0_9817 : ℚ := f32lit (mkRat 9817 10000)

/-- `1e-10f32`. -/
def lit1e10 : ℚ := f32lit (mkRat 1 10000000000)

/-- `ONEQTR_PI = f32::consts::PI / 4.0` (division by 4 is exact). -/
def oneQtrPi : ℚ := qdiv pi32 4

/-- `THRQTR_PI = 3.0 * f32::consts::PI / 4.0`. -/
def thrQtrPi : ℚ := qdiv (f32mul 3 pi32) 4

/-- `RADIANS_TO_DEGREES = 180 / PI` in `f32`. -/
def rad2deg : ℚ := f32div 180 pi32

/-- `fn atan2_approx(y, x)` (edge.rs), step-for-step in emulated `f32`. -/
def atan2Approx (y x : ℚ) : ℚ :=
  let abs_y := f32add |y| lit1e10
  let ra :=
    if x < 0 then (f32div (f32add x abs_y) (f32sub abs_y x), thrQtrPi)
    else (f32div (f32sub x abs_y) (f32add x abs_y), oneQtrPi)
  let r := ra.1
  let angle := f32add ra.2
    (f32mul (f32sub (f32mul (f32mul lit0_1963 r) r) lit0_9817) r)
  if y < 0 then -angle else angle

/-- The `(cmp1, cmp2)` pair of `non_maximum_suppression` at one point: bucket
the gradient direction and read the two comparison magnitudes.  The four
bucket conditions of the source are exhaustive over the ordered rationals, so
the final arm is the fourth condition (`112.5 ≤ angle < 157.5`) and the
`unreachable!` arm has no counterpart.  Note the second read of the vertical
band is `g[(y + 1) + x]`, exactly as written in the source. -/
def nmsCmp (width : Nat) (g : Nat → ℚ) (xg yg : ℚ) (x y : Nat) : ℚ × ℚ :=
  let angle0 := f32mul (atan2Approx yg xg) rad2deg
  let angle := if angle0 < 0 then f32add angle0 180 else angle0
  if mkRat 315 2 ≤ angle ∨ angle < mkRat 45 2 then
    (g (y * width + x - 1), g (y * width + x + 1))
  else if mkRat 45 2 ≤ angle ∧ angle < mkRat 135 2 then
    (g ((y + 1) * width + x + 1), g ((y - 1) * width + x - 1))
  else if mkRat 135 2 ≤ angle ∧ angle < mkRat 225 2 then
    (g ((y - 1) * width + x), g ((y + 1) + x))
  else
    (g ((y + 1) * width + x - 1), g ((y - 1) * width + x + 1))

/-- `fn non_maximum_suppression`: suppress every process-extent point that is
not ≥ both direction-appropriate comparison values. -/
def nmsPass (width : Nat) (g : Nat → ℚ) (gxb gyb : Nat → Int) :
    List Point → (Nat → ℚ) → (Nat → ℚ)
  | [], out => out
  | p :: ps, out =>
    nmsPass width g gxb gyb ps
      (updF out (p.2 * width + p.1)
        (if g (p.2 * width + p.1) <
            (nmsCmp width g (int2f32 (gxb (p.2 * width + p.1)))
              (int2f32 (gyb (p.2 * width + p.1))) p.1 p.2).1 ∨
            g (p.2 * width + p.1) <
            (nmsCmp width g (int2f32 (gxb (p.2 * width + p.1)))
              (int2f32 (gyb (p.2 * width + p.1))) p.1 p.2).2
         then 0 else g (p.2 * width + p.1)))

/-- The six neighbour offsets of the hysteresis flood fill: the first two
components of each 4-tuple in `neighbor_indices` (the last two components are
never read by the loop).  Coordinate subtraction is `u32` in the source; every
context proved about keeps `nx, ny ≥ 1`, where `Nat` subtraction agrees. -/
def hystNeighbors (nx ny : Nat) : List Point :=
  [(nx + 1, ny), (nx + 1, ny + 1), (nx, ny + 1), (nx - 1, ny - 1),
    (nx - 1, ny), (nx - 1, ny + 1)]

/-- Visit a list of neighbour candidates in order: mark and push every
candidate whose suppressed magnitude reaches the low threshold and whose red
channel differs from the line colour's.  State is (image, stack,
painted-so-far); the painted list is ghost instrumentation recording every
pixel written. -/
def visitNbrs (width : Nat) (input : Nat → ℚ) (low2 : ℚ) (colour : Pixel) :
    List Point → Image → List Point → List Point →
    Image × List Point × List Point
  | [], img, stack, acc => (img, stack, acc)
  | c :: cs, img, stack, acc =>
    if low2 ≤ input (c.2 * width + c.1) ∧ (img c.1 c.2).r ≠ colour.r then
      visitNbrs width input low2 colour cs (updImg img c.1 c.2 colour)
        (c :: stack) (acc ++ [c])
    else visitNbrs width input low2 colour cs img stack acc

/-- The `while !edges.is_empty()` loop: pop the most recent point and visit
its six neighbours.  `fuel` bounds iterations; every run proved about
terminates well within the fuel supplied (each push paints a previously
unpainted in-frame pixel, so pops are bounded by the frame area plus one per
seed). -/
def floodFill (width : Nat) (input : Nat → ℚ) (low2 : ℚ) (colour : Pixel) :
    Nat → Image → List Point → List Point → Image × List Point
  | 0, img, _, acc => (img, acc)
  | _ + 1, img, [], acc => (img, acc)
  | fuel + 1, img, c :: stack, acc =>
      let st := visitNbrs width input low2 colour (hystNeighbors c.1 c.2)
        img stack acc
      floodFill width input low2 colour fuel st.1 st.2.1 st.2.2

/-- The seed loop of `fn hysteresis`: every process-extent point at or above
the high threshold whose red channel differs from the line colour's becomes a
seed, is painted, and its connected component is grown through the flood fill
before the next seed is considered. -/
def hystLoop (width height : Nat) (input : Nat → ℚ) (low2 high2 : ℚ)
    (colour : Pixel) : List Point → Image → List Point → Image × List Point
  | [], img, acc => (img, acc)
  | p :: ps, img, acc =>
    if high2 ≤ input (p.2 * width + p.1) ∧ (img p.1 p.2).r ≠ colour.r then
      let st := floodFill width input low2 colour
        ((width * height + 2) * (width * height + 2))
        (updImg img p.1 p.2 colour) [p] (acc ++ [p])
      hystLoop width height input low2 high2 colour ps st.1 st.2
    else hystLoop width height input low2 high2 colour ps img acc

/-- `fn hysteresis`: thresholds squared by the caller (`Canny::detect`);
returns the final image and the ghost list of painted pixels. -/
def hysteresisPass (width height : Nat) (input : Nat → ℚ) (img0 : Image)
    (low2 high2 : ℚ) (colour : Pixel) (pts : List Point) :
    Image × List Point :=
  hystLoop width height input low2 high2 colour pts img0 []

/-- `Canny<T>`: the preallocated buffers (one entry per frame pixel, embedded
as total functions over flat indices) together with the configuration. -/
structure Canny (W : Type) where
  gx : Nat → Int
  gy : Nat → Int
  filtered : Nat → ℚ
  supressed : Nat → ℚ
  width : Nat
  height : Nat
  low_threshold : ℚ
  high_threshold : ℚ
  line_colour : Pixel
  window : W

/-- `Canny::new` — all four buffers zero-initialised. -/
def Canny.new (W : Type) (width height : Nat) (low_threshold high_threshold : ℚ)
    (line_colour : Pixel) (window : W) : Canny W :=
  { gx := fun _ => 0
    gy := fun _ => 0
    filtered := fun _ => 0
    supressed := fun _ => 0
    width := width
    height := height
    low_threshold := low_threshold
    high_threshold := high_threshold
    line_colour := line_colour
    window := window }

/-- The outcome of one `Canny::detect` call: the engine with its updated
buffers, the mutated frame, and the ghost list of pixels hysteresis painted. -/
structure CannyOutcome (W : Type) where
  canny : Canny W
  image : Image
  painted : List Point

/-- The computation of one `Canny::detect` call once the process extent has
been materialised: grayscale conversion, gradient, non-maximum suppression,
hysteresis. -/
def cannyRun {W : Type} [CWindow W] (c : Canny W) (src : Image)
    (pts : List Point) : CannyOutcome W :=
  let gray := toGray src
  let bufs := gradientPass c.width c.height gray (CWindow.gradientPts c.window)
    c.gx c.gy c.filtered
  let supp := nmsPass c.width bufs.2.2 bufs.1 bufs.2.1 pts c.supressed
  let low2 := f32mul c.low_threshold c.low_threshold
  let high2 := f32mul c.high_threshold c.high_threshold
  let res := hysteresisPass c.width c.height supp src low2 high2 c.line_colour
    pts
  ⟨{ c with
      gx := bufs.1
      gy := bufs.2.1
      filtered := bufs.2.2
      supressed := supp },
    res.1, res.2⟩

/-- `Canny::detect` mutates the frame in place (embedded as returning the new
frame). -/
def Canny.detect {W : Type} [CWindow W] (c : Canny W) (src : Image) :
    Except String (CannyOutcome W) := do
  let pts ← CWindow.processPts c.window
  pure (cannyRun c src pts)

theorem Canny.detect_eq {W : Type} [CWindow W] (c : Canny W) (src : Image)
    (pts : List Point) (hproc : CWindow.processPts c.window = Except.ok pts) :
    c.detect src = Except.ok (cannyRun c src pts) := by
  rw [Canny.detect, hproc]
  rfl

theorem Canny.detect_inv {W : Type} [CWindow W] (c : Canny W) (src : Image)
    (res : CannyOutcome W) (hdet : c.detect src = Except.ok res) :
    ∃ pts, CWindow.processPts c.window = Except.ok pts ∧
      res = cannyRun c src pts := by
  rw [Canny.detect] at hdet
  cases hproc : CWindow.processPts c.window with
  | error e => rw [hproc] at hdet; cases hdet
  | ok pts =>
    rw [hproc] at hdet
    refine ⟨pts, rfl, ?_⟩
    cases hdet
    rfl

/-! ## Card/boundary detector (`src/card.rs`) -/

/-- `EDGE_COLOUR: Rgba = [0, 0, 0, 254]`. -/
def edgeColour : Pixel := ⟨0, 0, 0, 254⟩

/-- `MISS_COLOUR: Rgba = [255, 0, 0, 255]`. -/
def missColour : Pixel := ⟨255, 0, 0, 255⟩

/-- `HIT_COLOUR: Rgba = [0, 255, 0, 255]`. -/
def hitColour : Pixel := ⟨0, 255, 0, 255⟩

/-- `const RATIO: f32 = 5.0 / 7.0` (one binary32 division). -/
def ratio57 : ℚ := f32div 5 7

/-- `const MARGIN: f32 = 0.05`. -/
def margin5pc : ℚ := f32lit (mkRat 1 20)

/-- `fn get_corners(width, height)` (card.rs): inscribe the 5:7 card rectangle
and inset it by a floored 5% margin, all in emulated `f32`. -/
def get_corners (width height : Nat) : Rectangle :=
  let h := f32ofNat height
  let w := f32ofNat width
  let wh := if ratio57 < f32div w h then (f32mul h ratio57, h)
    else (w, f32div w ratio57)
  let w2 := wh.1
  let h2 := wh.2
  let margin := (f32mul w2 margin5pc).floor.toNat
  { tl := (margin, margin)
    br := (w2.floor.toNat - margin, h2.floor.toNat - margin) }

/-- `Detector`. -/
structure Detector where
  card_edge_width : Nat
  canny : Canny RectangleInRectangleWindow
  boundary : Rectangle
  inner_boundary : Rectangle
  outer_boundary : Rectangle

/-- `Detector::new` (as driven by `DetectorBuilder::build`): compute the ideal
boundary, clamp-grow/shrink it by half the detection window width within the
frame rectangle, and configure the Canny engine on the resulting frame-shaped
window. -/
def Detector.new (width height card_edge_width detection_window_width : Nat)
    (low_threshold high_threshold : ℚ) : Except String Detector := do
  let image_rect ← Rectangle.from_dimensions width height
  let boundary := get_corners width height
  let outer_boundary ← boundary.clamped_grow (detection_window_width / 2)
    image_rect
  let inner_boundary ← boundary.clamped_shrink (detection_window_width / 2)
    image_rect
  let window ← RectangleInRectangleWindow.new outer_boundary inner_boundary
  pure
    { card_edge_width := card_edge_width
      canny := Canny.new RectangleInRectangleWindow width height low_threshold
        high_threshold edgeColour window
      boundary := boundary
      inner_boundary := inner_boundary
      outer_boundary := outer_boundary }

/-- The diagnostic-strip row (or column) range of `Detector::detect`:
`v - card_edge_width ..= v` when `v` is in the near half (an unsigned
subtraction that fails when `card_edge_width > v`), else
`v ..= v + card_edge_width`. -/
def stripRange (v cew half : Nat) : Except String (List Nat) :=
  if v < half then do
    let lo ← checkedSub v cew
    pure (List.range' lo (cew + 1))
  else
    pure (List.range' v (cew + 1))

/-- One horizontal line of `Detector::detect`'s scorer: for each `x` across
the boundary width, a hit iff some pixel of the perpendicular band
`min_y..max_y` at that `x` equals `EDGE_COLOUR`; then draw the diagnostic
strip (bounds-checked writes).  Returns (hits, image). -/
def scoreHorizontal (fw fh : Nat) (boundary : Rectangle) (cew : Nat)
    (img0 : Image) (y min_y max_y : Nat) : Except String (Nat × Image) :=
  (List.range' boundary.tl.1 boundary.width).foldlM
    (fun st x => do
      let hit := (List.range' min_y (max_y - min_y)).any
        (fun yy => getPixel st.2 x yy == edgeColour)
      let colour := if hit then hitColour else missColour
      let yr ← stripRange y cew (boundary.height / 2)
      let img ← yr.foldlM (fun im yy => checkedPut fw fh im x yy colour) st.2
      pure (if hit then st.1 + 1 else st.1, img))
    ((0 : Nat), img0)

/-- One vertical line of `Detector::detect`'s scorer.  Note the source's miss
arm is `(MISS_COLOUR, true)`: the miss colour is drawn but the sample still
counts as a hit, exactly as written in `card.rs`. -/
def scoreVertical (fw fh : Nat) (boundary : Rectangle) (cew : Nat)
    (img0 : Image) (x min_x max_x : Nat) : Except String (Nat × Image) :=
  (List.range' boundary.tl.2 boundary.height).foldlM
    (fun st y => do
      let scan := (List.range' min_x (max_x - min_x)).any
        (fun xx => getPixel st.2 xx y == edgeColour)
      let ch : Pixel × Bool := if scan then (hitColour, true)
        else (missColour, true)
      let xr ← stripRange x cew (boundary.width / 2)
      let img ← xr.foldlM (fun im xx => checkedPut fw fh im xx y ch.1) st.2
      pure (if ch.2 then st.1 + 1 else st.1, img))
    ((0 : Nat), img0)

/-- `0.8f32`, the per-side ratio threshold. -/
def lit0_8 : ℚ := f32lit (mkRat 4 5)

/-- The scoring stage of `Detector::detect` (everything after the embedded
Canny run): the four per-side ratios in order top, bottom, left, right,
together with the frame mutated by the diagnostic strips. -/
def scoreSides (d : Detector) (img0 : Image) :
    Except String (List ℚ × Image) := do
  let top ← scoreHorizontal d.canny.width d.canny.height d.boundary
    d.card_edge_width img0 d.boundary.tl.2 d.outer_boundary.tl.2
    d.inner_boundary.tl.2
  let bottom ← scoreHorizontal d.canny.width d.canny.height d.boundary
    d.card_edge_width top.2 d.boundary.br.2 d.inner_boundary.br.2
    d.outer_boundary.br.2
  let left ← scoreVertical d.canny.width d.canny.height d.boundary
    d.card_edge_width bottom.2 d.boundary.tl.1 d.outer_boundary.tl.1
    d.inner_boundary.tl.1
  let right ← scoreVertical d.canny.width d.canny.height d.boundary
    d.card_edge_width left.2 d.boundary.br.1 d.inner_boundary.br.1
    d.outer_boundary.br.1
  pure
    ([f32div (f32ofNat top.1) (f32ofNat d.boundary.width),
      f32div (f32ofNat bottom.1) (f32ofNat d.boundary.width),
      f32div (f32ofNat left.1) (f32ofNat d.boundary.height),
      f32div (f32ofNat right.1) (f32ofNat d.boundary.height)],
     right.2)

/-- `Detector::detect`: run the Canny engine on the frame, score the four
sides, and report presence iff at least 3 of the 4 ratios exceed `0.8`. -/
def Detector.detect (d : Detector) (img : Image) :
    Except String (Bool × Image) := do
  let cres ← d.canny.detect img
  let scored ← scoreSides d cres.image
  pure (decide (3 ≤ (scored.1.filter (fun s => decide (lit0_8 < s))).length),
    scored.2)

/-! ## Claim C7: ideal-boundary fixed points -/

set_option maxRecDepth 16000

/-- C7: `get_corners` yields `[[2,2],[38,54]]` for frame dimensions (40,56),
(49,56) and (40,59), and a different rectangle for (39,56) and (40,54). -/
theorem c7_get_corners_fixed_points :
    get_corners 40 56 = ⟨(2, 2), (38, 54)⟩ ∧
    get_corners 49 56 = ⟨(2, 2), (38, 54)⟩ ∧
    get_corners 40 59 = ⟨(2, 2), (38, 54)⟩ ∧
    get_corners 39 56 ≠ ⟨(2, 2), (38, 54)⟩ ∧
    get_corners 40 54 ≠ ⟨(2, 2), (38, 54)⟩ := by
  refine ⟨by decide, by decide, by decide, by decide, by decide⟩

/-! ## Claim C4: clamped grow/shrink -/

/-- Every coordinate of `res` lies within the bound rectangle. -/
def withinBound (res bound : Rectangle) : Prop :=
  bound.tl.1 ≤ res.tl.1 ∧ bound.tl.2 ≤ res.tl.2 ∧
    res.br.1 ≤ bound.br.1 ∧ res.br.2 ≤ bound.br.2

/-- C4 counterexample: the clamped operations do not always return a
rectangle.  For the strictly contained rectangle `[[2,2],[8,8]]` inside
`[[0,0],[10,10]]`: with `n = 100` `clamped_shrink`'s clamped corners invert
and the `Rectangle::new` assertion fails (a panic in the source), and with
`n = usize::MAX - 8` `clamped_grow`'s `value + n + 1` addition overflows
`usize` (a debug panic; a release build wraps to corner 0 and then fails the
same assertion). -/
theorem c4_clamped_ops_can_fail :
    (Rectangle.contains ⟨(0, 0), (10, 10)⟩ ⟨(2, 2), (8, 8)⟩ = true) ∧
    (Rectangle.clamped_shrink ⟨(2, 2), (8, 8)⟩ 100 ⟨(0, 0), (10, 10)⟩).toOption
      = none ∧
    (Rectangle.clamped_grow ⟨(2, 2), (8, 8)⟩ (usizeMax - 8)
      ⟨(0, 0), (10, 10)⟩).toOption = none := by
  exact ⟨by decide, by decide, by decide⟩

theorem clamp_sub_eq (value n minv : Nat) (h : n + minv ≤ usizeMax) :
    clamp_sub value n minv =
      Except.ok (if value < n + minv then minv else value - n) := by
  rw [clamp_sub, checkedAdd, if_pos h]
  rfl

theorem clamp_add_eq (value n maxv : Nat) (h : value + n + 1 ≤ usizeMax)
    (hm : 1 ≤ maxv) :
    clamp_add value n maxv = Except.ok (min (value + n + 1) maxv - 1) := by
  rw [clamp_add, checkedAdd, if_pos (by omega : value + n ≤ usizeMax)]
  show (checkedAdd (value + n) 1).bind _ = _
  rw [checkedAdd, if_pos (by omega : value + n + 1 ≤ usizeMax)]
  show checkedSub (min (value + n + 1) maxv) 1 = _
  rw [checkedSub, if_pos (le_min (by omega) hm)]

theorem clamp_sub_ok {value n minv w : Nat}
    (h : clamp_sub value n minv = Except.ok w) :
    w = if value < n + minv then minv else value - n := by
  rw [clamp_sub, checkedAdd] at h
  split at h
  · exact (Except.ok.inj h).symm
  · cases h

theorem clamp_add_ok {value n maxv w : Nat}
    (h : clamp_add value n maxv = Except.ok w) :
    w = min (value + n + 1) maxv - 1 := by
  rw [clamp_add, checkedAdd] at h
  split at h
  · have h2 : (do
        let s2 ← checkedAdd (value + n) 1
        checkedSub (min s2 maxv) 1 : Except String Nat) = Except.ok w := h
    rw [checkedAdd] at h2
    split at h2
    · have h3 : checkedSub (min (value + n + 1) maxv) 1 = Except.ok w := h2
      rw [checkedSub] at h3
      split at h3
      · exact (Except.ok.inj h3).symm
      · cases h3
    · cases h2
  · cases h

theorem Rectangle.new_pos {a b c d : Nat} (h : a < c ∧ b < d) :
    Rectangle.new (a, b) (c, d) = Except.ok ⟨(a, b), (c, d)⟩ := by
  rw [Rectangle.new, if_pos h]

/-- C4 (amended): for every rectangle strictly contained in the bound and
every `n` for which the source's `usize` additions do not overflow,
`clamped_grow` succeeds and its result stays within the bound (for larger `n`
the addition itself panics, as the counterexample shows); `clamped_shrink`
stays within the bound whenever it returns a rectangle (but may fail for
large `n`, as the counterexample shows). -/
theorem c4_clamped_ops_stay_within_bound (r bound : Rectangle) (n : Nat)
    (hr : r.tl.1 < r.br.1 ∧ r.tl.2 < r.br.2)
    (h : bound.contains r = true)
    (hov1 : n + bound.tl.1 ≤ usizeMax) (hov2 : n + bound.tl.2 ≤ usizeMax)
    (hov3 : r.br.1 + n + 1 ≤ usizeMax) (hov4 : r.br.2 + n + 1 ≤ usizeMax) :
    (∃ res, r.clamped_grow n bound = Except.ok res ∧ withinBound res bound) ∧
    (∀ res, r.clamped_shrink n bound = Except.ok res → withinBound res bound)
    := by
  simp only [Rectangle.contains, Bool.and_eq_true, decide_eq_true_eq] at h
  obtain ⟨⟨⟨h1, h2⟩, h3⟩, h4⟩ := h
  obtain ⟨hr1, hr2⟩ := hr
  constructor
  · have key : r.clamped_grow n bound = Rectangle.new
        ((if r.tl.1 < n + bound.tl.1 then bound.tl.1 else r.tl.1 - n),
         (if r.tl.2 < n + bound.tl.2 then bound.tl.2 else r.tl.2 - n))
        ((min (r.br.1 + n + 1) bound.br.1 - 1),
         (min (r.br.2 + n + 1) bound.br.2 - 1)) := by
      rw [Rectangle.clamped_grow, clamp_sub_eq r.tl.1 n bound.tl.1 hov1,
        clamp_sub_eq r.tl.2 n bound.tl.2 hov2,
        clamp_add_eq r.br.1 n bound.br.1 hov3 (by omega),
        clamp_add_eq r.br.2 n bound.br.2 hov4 (by omega)]
      rfl
    have hcd : (if r.tl.1 < n + bound.tl.1 then bound.tl.1 else r.tl.1 - n) <
          min (r.br.1 + n + 1) bound.br.1 - 1 ∧
        (if r.tl.2 < n + bound.tl.2 then bound.tl.2 else r.tl.2 - n) <
          min (r.br.2 + n + 1) bound.br.2 - 1 := by
      constructor <;> (simp only [Nat.min_def]; split_ifs <;> omega)
    refine ⟨_, key.trans (Rectangle.new_pos hcd), ?_⟩
    refine ⟨?_, ?_, ?_, ?_⟩ <;>
      (simp only [Nat.min_def]; split_ifs <;> omega)
  · intro res hres
    rw [Rectangle.clamped_shrink] at hres
    cases ha : clamp_add r.tl.1 n bound.br.1 with
    | error e => rw [ha] at hres; cases hres
    | ok a =>
    rw [ha] at hres
    cases hb : clamp_add r.tl.2 n bound.br.2 with
    | error e => rw [hb] at hres; cases hres
    | ok b =>
    rw [hb] at hres
    cases hc : clamp_sub r.br.1 n bound.tl.1 with
    | error e => rw [hc] at hres; cases hres
    | ok c =>
    rw [hc] at hres
    cases hd : clamp_sub r.br.2 n bound.tl.2 with
    | error e => rw [hd] at hres; cases hres
    | ok d =>
    rw [hd] at hres
    have hres' : Rectangle.new (a, b) (c, d) = Except.ok res := hres
    rw [Rectangle.new] at hres'
    split at hres'
    · cases hres'
      obtain rfl := clamp_add_ok ha
      obtain rfl := clamp_add_ok hb
      obtain rfl := clamp_sub_ok hc
      obtain rfl := clamp_sub_ok hd
      refine ⟨?_, ?_, ?_, ?_⟩ <;>
        (simp only [Nat.min_def]; split_ifs <;> omega)
    · cases hres'

/-- Witness for `c4_clamped_ops_stay_within_bound` at a concrete instance. -/
theorem c4_clamped_ops_witness :
    (((2, 2) : Point).1 < ((8, 8) : Point).1 ∧
      ((2, 2) : Point).2 < ((8, 8) : Point).2) ∧
    (Rectangle.contains ⟨(0, 0), (10, 10)⟩ ⟨(2, 2), (8, 8)⟩ = true) ∧
    (5 + 0 ≤ usizeMax ∧ 8 + 5 + 1 ≤ usizeMax) ∧
    ((∃ res, Rectangle.clamped_grow ⟨(2, 2), (8, 8)⟩ 5 ⟨(0, 0), (10, 10)⟩ =
        Except.ok res ∧ withinBound res ⟨(0, 0), (10, 10)⟩) ∧
     (∀ res, Rectangle.clamped_shrink ⟨(2, 2), (8, 8)⟩ 5 ⟨(0, 0), (10, 10)⟩ =
        Except.ok res → withinBound res ⟨(0, 0), (10, 10)⟩)) :=
  ⟨by decide, by decide, ⟨by decide, by decide⟩,
    c4_clamped_ops_stay_within_bound ⟨(2, 2), (8, 8)⟩ ⟨(0, 0), (10, 10)⟩ 5
      (by decide) (by decide) (by decide) (by decide) (by decide) (by decide)⟩

/-! ## Claim C5: frame-window gradient extent -/

/-- Is `(x, y)` inside the excluded inner region (x within the inner columns
and y within the inner rows)? -/
def inInner (wd : RectangleInRectangleWindow) (x y : Nat) : Bool :=
  decide (wd.inner.tl.1 ≤ x ∧ x < wd.inner.br.1 ∧
    wd.inner.tl.2 ≤ y ∧ y < wd.inner.br.2)

/-- The points of row `y` from column `x0` to the outer right edge, in order,
excluding inner points. -/
def rowPoints (wd : RectangleInRectangleWindow) (x0 y : Nat) : List Point :=
  ((List.range' x0 (wd.outer.br.1 - x0)).filter
    (fun x => !inInner wd x y)).map (fun x => (x, y))

/-- Row-major enumeration of the frame window from row `y0` down, stated the
way the specification describes the sequence: all points of the outer
rectangle, row-major, excluding any point whose x falls in the inner column
range and whose y falls in the inner row range. -/
def rowsFrom (wd : RectangleInRectangleWindow) (y0 : Nat) : List Point :=
  (List.range' y0 (wd.outer.br.2 - y0)).flatMap
    (fun y => rowPoints wd wd.outer.tl.1 y)

/-- The full row-major filtered enumeration from the outer top-left corner. -/
def gradSpec (wd : RectangleInRectangleWindow) : List Point :=
  rowsFrom wd wd.outer.tl.2

theorem iterFuel_none (step : Point → Option Point) (fuel : Nat) :
    iterFuel step fuel none = [] := by
  cases fuel <;> rfl

theorem not_inInner_iff (wd : RectangleInRectangleWindow) (x y : Nat) :
    (!inInner wd x y) = true ↔
      ¬(wd.inner.tl.1 ≤ x ∧ x < wd.inner.br.1 ∧
        wd.inner.tl.2 ≤ y ∧ y < wd.inner.br.2) := by
  rw [inInner, Bool.not_eq_true', decide_eq_false_iff_not]

theorem rowsFrom_unfold (wd : RectangleInRectangleWindow) (y : Nat)
    (hy : y < wd.outer.br.2) :
    rowsFrom wd y = rowPoints wd wd.outer.tl.1 y ++ rowsFrom wd (y + 1) := by
  rw [rowsFrom, rowsFrom, show wd.outer.br.2 - y = (wd.outer.br.2 - (y+1)) + 1
    by omega, List.range'_succ, List.flatMap_cons]

/-- The central simulation lemma: from any valid cursor position, the
`RectangleInRectangleWindowIterator` yields exactly the rest of the row-major
filtered enumeration. -/
theorem iter_simulates (wd : RectangleInRectangleWindow)
    (h1 : wd.outer.tl.1 < wd.inner.tl.1) (h2 : wd.outer.tl.2 < wd.inner.tl.2)
    (h3 : wd.inner.br.1 < wd.outer.br.1) (h4 : wd.inner.br.2 < wd.outer.br.2)
    (h5 : wd.inner.tl.1 < wd.inner.br.1) (h6 : wd.inner.tl.2 < wd.inner.br.2) :
    ∀ fuel x y,
      (wd.outer.br.2 - 1 - y) * (wd.outer.br.1 - wd.outer.tl.1) +
        (wd.outer.br.1 - x) ≤ fuel →
      wd.outer.tl.1 ≤ x → x < wd.outer.br.1 →
      wd.outer.tl.2 ≤ y → y < wd.outer.br.2 →
      (wd.inner.tl.2 ≤ y → y < wd.inner.br.2 →
        (x < wd.inner.tl.1 ∨ wd.inner.br.1 ≤ x)) →
      iterFuel (ririStep wd) fuel (some (x, y)) =
        rowPoints wd x y ++ rowsFrom wd (y + 1) := by
  intro fuel
  induction fuel with
  | zero => intro x y hfuel hx1 hx2 hy1 hy2 hval; omega
  | succ fuel ih =>
    intro x y hfuel hx1 hx2 hy1 hy2 hval
    rw [show iterFuel (ririStep wd) (fuel + 1) (some (x, y)) =
      (x, y) :: iterFuel (ririStep wd) fuel (ririStep wd (x, y)) from rfl]
    by_cases hB1 : x = wd.inner.tl.1 - 1 ∧ wd.inner.tl.2 ≤ y ∧
        y < wd.inner.br.2
    · obtain ⟨hx, hrow1, hrow2⟩ := hB1
      have hstep : ririStep wd (x, y) = some (wd.inner.br.1, y) := by
        rw [ririStep, if_pos ⟨hx, hrow1, hrow2⟩]
      rw [hstep, ih wd.inner.br.1 y (by omega) (by omega) (by omega) hy1 hy2
        (fun _ _ => Or.inr (le_refl _))]
      have hkeep1 : (!inInner wd x y) = true := by
        rw [not_inInner_iff]
        omega
      have hrow : rowPoints wd x y = (x, y) :: rowPoints wd wd.inner.br.1 y
          := by
        rw [rowPoints, show wd.outer.br.1 - x = (wd.outer.br.1 - (x+1)) + 1
          by omega, List.range'_succ, List.filter_cons, if_pos hkeep1,
          List.map_cons]
        congr 1
        have hx1i : x + 1 = wd.inner.tl.1 := by omega
        have hsplit : List.range' (x + 1) (wd.outer.br.1 - (x + 1)) =
            List.range' wd.inner.tl.1 (wd.inner.br.1 - wd.inner.tl.1) ++
            List.range' wd.inner.br.1 (wd.outer.br.1 - wd.inner.br.1) := by
          rw [hx1i, show wd.outer.br.1 - wd.inner.tl.1 =
            (wd.outer.br.1 - wd.inner.br.1) + (wd.inner.br.1 -
              wd.inner.tl.1) by omega]
          rw [← List.range'_append]
          congr 2
          omega
        rw [hsplit, List.filter_append]
        have hnil : (List.range' wd.inner.tl.1
            (wd.inner.br.1 - wd.inner.tl.1)).filter
            (fun x => !inInner wd x y) = [] := by
          rw [List.filter_eq_nil_iff]
          intro a ha
          rw [List.mem_range'] at ha
          obtain ⟨i, hi, rfl⟩ := ha
          rw [not_inInner_iff, not_not]
          omega
        rw [hnil, List.nil_append, rowPoints]
      rw [hrow, List.cons_append]
    · by_cases hB2 : x = wd.outer.br.1 - 1
      · have hkeep : (!inInner wd x y) = true := by
          rw [not_inInner_iff]
          intro hcon
          rcases hval hcon.2.2.1 hcon.2.2.2 with hl | hr <;> omega
        have hrow : rowPoints wd x y = [(x, y)] := by
          rw [rowPoints, show wd.outer.br.1 - x = 1 by omega]
          rw [List.range'_one, List.filter_cons, if_pos hkeep]
          rfl
        by_cases hB3 : y = wd.outer.br.2 - 1
        · have hstep : ririStep wd (x, y) = none := by
            rw [ririStep, if_neg hB1, if_pos hB2, if_pos hB3]
          rw [hstep, iterFuel_none, hrow]
          rw [show y + 1 = wd.outer.br.2 by omega, rowsFrom,
            Nat.sub_self, List.range'_zero, List.flatMap_nil, List.append_nil]
        · have hstep : ririStep wd (x, y) =
              some (wd.outer.tl.1, y + 1) := by
            rw [ririStep, if_neg hB1, if_pos hB2, if_neg hB3]
          rw [hstep, ih wd.outer.tl.1 (y + 1)
            (by
              have hW : 1 ≤ wd.outer.br.1 - wd.outer.tl.1 := by omega
              have : (wd.outer.br.2 - 1 - (y + 1)) *
                  (wd.outer.br.1 - wd.outer.tl.1) +
                  (wd.outer.br.1 - wd.outer.tl.1) =
                  (wd.outer.br.2 - 1 - y) *
                  (wd.outer.br.1 - wd.outer.tl.1) := by
                rw [← Nat.succ_mul]
                congr 1
                omega
              omega)
            (le_refl _) (by omega) (by omega) (by omega)
            (fun _ _ => Or.inl h1)]
          rw [hrow, rowsFrom_unfold wd (y + 1) (by omega)]
          rfl
      · have hkeep : (!inInner wd x y) = true := by
          rw [not_inInner_iff]
          intro hcon
          rcases hval hcon.2.2.1 hcon.2.2.2 with hl | hr <;> omega
        have hstep : ririStep wd (x, y) = some (x + 1, y) := by
          rw [ririStep, if_neg hB1, if_neg hB2]
        have hval' : wd.inner.tl.2 ≤ y → y < wd.inner.br.2 →
            (x + 1 < wd.inner.tl.1 ∨ wd.inner.br.1 ≤ x + 1) := by
          intro hr1 hr2
          rcases hval hr1 hr2 with hl | hr
          · rcases Nat.lt_or_ge (x + 1) wd.inner.tl.1 with hlt | hge
            · exact Or.inl hlt
            · exfalso
              exact hB1 ⟨by omega, hr1, hr2⟩
          · exact Or.inr (by omega)
        rw [hstep, ih (x + 1) y (by omega) (by omega) (by omega) hy1 hy2
          hval']
        have hrow : rowPoints wd x y = (x, y) :: rowPoints wd (x + 1) y := by
          rw [rowPoints, show wd.outer.br.1 - x = (wd.outer.br.1 - (x+1)) + 1
            by omega, List.range'_succ, List.filter_cons, if_pos hkeep,
            List.map_cons, rowPoints]
        rw [hrow, List.cons_append]

theorem sum_map_const_range' (s n c : Nat) :
    ((List.range' s n).map (fun _ => c)).sum = n * c := by
  induction n generalizing s with
  | zero => simp
  | succ n ih =>
    rw [List.range'_succ, List.map_cons, List.sum_cons, ih]
    ring

theorem range'_split (s m n : Nat) (h : m ≤ n) :
    List.range' s n = List.range' s m ++ List.range' (s + m) (n - m) := by
  have happ := List.range'_append s m (n - m) 1
  simp only [one_mul] at happ
  rw [happ]
  congr 1
  omega

theorem rowPoints_length (wd : RectangleInRectangleWindow)
    (h1 : wd.outer.tl.1 < wd.inner.tl.1) (h3 : wd.inner.br.1 < wd.outer.br.1)
    (h5 : wd.inner.tl.1 < wd.inner.br.1) (y : Nat) :
    (rowPoints wd wd.outer.tl.1 y).length =
      if wd.inner.tl.2 ≤ y ∧ y < wd.inner.br.2 then
        (wd.outer.br.1 - wd.outer.tl.1) - (wd.inner.br.1 - wd.inner.tl.1)
      else wd.outer.br.1 - wd.outer.tl.1 := by
  rw [rowPoints, List.length_map]
  by_cases hrow : wd.inner.tl.2 ≤ y ∧ y < wd.inner.br.2
  · rw [if_pos hrow]
    have hsplit : List.range' wd.outer.tl.1 (wd.outer.br.1 - wd.outer.tl.1) =
        (List.range' wd.outer.tl.1 (wd.inner.tl.1 - wd.outer.tl.1) ++
          List.range' wd.inner.tl.1 (wd.inner.br.1 - wd.inner.tl.1)) ++
        List.range' wd.inner.br.1 (wd.outer.br.1 - wd.inner.br.1) := by
      rw [range'_split wd.outer.tl.1 (wd.inner.tl.1 - wd.outer.tl.1)
        (wd.outer.br.1 - wd.outer.tl.1) (by omega)]
      rw [show wd.outer.tl.1 + (wd.inner.tl.1 - wd.outer.tl.1) =
        wd.inner.tl.1 by omega]
      rw [range'_split wd.inner.tl.1 (wd.inner.br.1 - wd.inner.tl.1)
        (wd.outer.br.1 - wd.outer.tl.1 - (wd.inner.tl.1 - wd.outer.tl.1))
        (by omega)]
      rw [show wd.inner.tl.1 + (wd.inner.br.1 - wd.inner.tl.1) =
        wd.inner.br.1 by omega,
        show wd.outer.br.1 - wd.outer.tl.1 - (wd.inner.tl.1 - wd.outer.tl.1) -
          (wd.inner.br.1 - wd.inner.tl.1) = wd.outer.br.1 - wd.inner.br.1
          by omega,
        List.append_assoc]
    rw [hsplit, List.filter_append, List.filter_append, List.length_append,
      List.length_append]
    have l1 : (List.range' wd.outer.tl.1
        (wd.inner.tl.1 - wd.outer.tl.1)).filter
        (fun x => !inInner wd x y) =
        List.range' wd.outer.tl.1 (wd.inner.tl.1 - wd.outer.tl.1) := by
      rw [List.filter_eq_self]
      intro a ha
      rw [List.mem_range'] at ha
      obtain ⟨i, hi, rfl⟩ := ha
      rw [not_inInner_iff]
      omega
    have l2 : (List.range' wd.inner.tl.1
        (wd.inner.br.1 - wd.inner.tl.1)).filter
        (fun x => !inInner wd x y) = [] := by
      rw [List.filter_eq_nil_iff]
      intro a ha
      rw [List.mem_range'] at ha
      obtain ⟨i, hi, rfl⟩ := ha
      rw [not_inInner_iff, not_not]
      omega
    have l3 : (List.range' wd.inner.br.1
        (wd.outer.br.1 - wd.inner.br.1)).filter
        (fun x => !inInner wd x y) =
        List.range' wd.inner.br.1 (wd.outer.br.1 - wd.inner.br.1) := by
      rw [List.filter_eq_self]
      intro a ha
      rw [List.mem_range'] at ha
      obtain ⟨i, hi, rfl⟩ := ha
      rw [not_inInner_iff]
      omega
    rw [l1, l2, l3, List.length_range', List.length_range']
    simp only [List.length_nil]
    omega
  · rw [if_neg hrow]
    have hall : (List.range' wd.outer.tl.1
        (wd.outer.br.1 - wd.outer.tl.1)).filter
        (fun x => !inInner wd x y) =
        List.range' wd.outer.tl.1 (wd.outer.br.1 - wd.outer.tl.1) := by
      rw [List.filter_eq_self]
      intro a _
      rw [not_inInner_iff]
      intro hcon
      exact hrow ⟨hcon.2.2.1, hcon.2.2.2⟩
    rw [hall, List.length_range']

/-- C5: for every frame-shaped window whose outer rectangle strictly contains
its inner rectangle (both rectangles valid), the gradient-extent sequence is
exactly the row-major enumeration of the outer rectangle excluding the inner
region, and its length is outer area minus inner area. -/
theorem c5_gradient_extent (wd : RectangleInRectangleWindow)
    (hv1 : wd.inner.tl.1 < wd.inner.br.1) (hv2 : wd.inner.tl.2 < wd.inner.br.2)
    (hc : wd.outer.contains wd.inner = true) :
    wd.gradient = gradSpec wd ∧
    wd.gradient.length =
      wd.outer.width * wd.outer.height -
        wd.inner.width * wd.inner.height := by
  simp only [Rectangle.contains, Bool.and_eq_true, decide_eq_true_eq] at hc
  obtain ⟨⟨⟨h1, h2⟩, h3⟩, h4⟩ := hc
  have hgrad : wd.gradient = gradSpec wd := by
    rw [RectangleInRectangleWindow.gradient, gradSpec]
    have hm : (wd.outer.br.2 - 1 - wd.outer.tl.2) *
        (wd.outer.br.1 - wd.outer.tl.1) +
        (wd.outer.br.1 - wd.outer.tl.1) =
        (wd.outer.br.2 - wd.outer.tl.2) *
        (wd.outer.br.1 - wd.outer.tl.1) := by
      rw [← Nat.succ_mul]
      congr 1
      omega
    have hfuel : (wd.outer.br.2 - 1 - wd.outer.tl.2) *
        (wd.outer.br.1 - wd.outer.tl.1) +
        (wd.outer.br.1 - wd.outer.tl.1) ≤
        wd.outer.width * wd.outer.height + 1 := by
      rw [hm, Rectangle.width, Rectangle.height, Nat.mul_comm]
      omega
    rw [rowsFrom_unfold wd wd.outer.tl.2 (by omega)]
    exact iter_simulates wd h1 h2 h3 h4 hv1 hv2 _ wd.outer.tl.1 wd.outer.tl.2
      hfuel (le_refl _) (by omega) (le_refl _) (by omega)
      (fun _ _ => Or.inl h1)
  refine ⟨hgrad, ?_⟩
  rw [hgrad, gradSpec, rowsFrom, List.length_flatMap]
  have hsplit : List.range' wd.outer.tl.2 (wd.outer.br.2 - wd.outer.tl.2) =
      (List.range' wd.outer.tl.2 (wd.inner.tl.2 - wd.outer.tl.2) ++
        List.range' wd.inner.tl.2 (wd.inner.br.2 - wd.inner.tl.2)) ++
      List.range' wd.inner.br.2 (wd.outer.br.2 - wd.inner.br.2) := by
    rw [range'_split wd.outer.tl.2 (wd.inner.tl.2 - wd.outer.tl.2)
      (wd.outer.br.2 - wd.outer.tl.2) (by omega)]
    rw [show wd.outer.tl.2 + (wd.inner.tl.2 - wd.outer.tl.2) =
      wd.inner.tl.2 by omega]
    rw [range'_split wd.inner.tl.2 (wd.inner.br.2 - wd.inner.tl.2)
      (wd.outer.br.2 - wd.outer.tl.2 - (wd.inner.tl.2 - wd.outer.tl.2))
      (by omega)]
    rw [show wd.inner.tl.2 + (wd.inner.br.2 - wd.inner.tl.2) =
      wd.inner.br.2 by omega,
      show wd.outer.br.2 - wd.outer.tl.2 - (wd.inner.tl.2 - wd.outer.tl.2) -
        (wd.inner.br.2 - wd.inner.tl.2) = wd.outer.br.2 - wd.inner.br.2
        by omega,
      List.append_assoc]
  rw [hsplit, List.map_append, List.map_append, List.sum_append,
    List.sum_append]
  have e1 : (List.range' wd.outer.tl.2 (wd.inner.tl.2 - wd.outer.tl.2)).map
      (fun y => (rowPoints wd wd.outer.tl.1 y).length) =
      (List.range' wd.outer.tl.2 (wd.inner.tl.2 - wd.outer.tl.2)).map
      (fun _ => wd.outer.br.1 - wd.outer.tl.1) := by
    apply List.map_congr_left
    intro a ha
    rw [List.mem_range'] at ha
    obtain ⟨i, hi, rfl⟩ := ha
    rw [rowPoints_length wd h1 h3 hv1, if_neg]
    omega
  have e2 : (List.range' wd.inner.tl.2 (wd.inner.br.2 - wd.inner.tl.2)).map
      (fun y => (rowPoints wd wd.outer.tl.1 y).length) =
      (List.range' wd.inner.tl.2 (wd.inner.br.2 - wd.inner.tl.2)).map
      (fun _ => (wd.outer.br.1 - wd.outer.tl.1) -
        (wd.inner.br.1 - wd.inner.tl.1)) := by
    apply List.map_congr_left
    intro a ha
    rw [List.mem_range'] at ha
    obtain ⟨i, hi, rfl⟩ := ha
    rw [rowPoints_length wd h1 h3 hv1, if_pos]
    omega
  have e3 : (List.range' wd.inner.br.2 (wd.outer.br.2 - wd.inner.br.2)).map
      (fun y => (rowPoints wd wd.outer.tl.1 y).length) =
      (List.range' wd.inner.br.2 (wd.outer.br.2 - wd.inner.br.2)).map
      (fun _ => wd.outer.br.1 - wd.outer.tl.1) := by
    apply List.map_congr_left
    intro a ha
    rw [List.mem_range'] at ha
    obtain ⟨i, hi, rfl⟩ := ha
    rw [rowPoints_length wd h1 h3 hv1, if_neg]
    omega
  simp only [Function.comp_def] at *
  rw [e1, e2, e3, sum_map_const_range', sum_map_const_range',
    sum_map_const_range']
  rw [Rectangle.width, Rectangle.height, Rectangle.width, Rectangle.height]
  have hWI : wd.inner.br.1 - wd.inner.tl.1 ≤ wd.outer.br.1 - wd.outer.tl.1 :=
    by omega
  have hHI : wd.inner.br.2 - wd.inner.tl.2 ≤ wd.outer.br.2 - wd.outer.tl.2 :=
    by omega
  have hprod : (wd.inner.br.1 - wd.inner.tl.1) *
      (wd.inner.br.2 - wd.inner.tl.2) ≤
      (wd.outer.br.1 - wd.outer.tl.1) * (wd.outer.br.2 - wd.outer.tl.2) :=
    Nat.mul_le_mul hWI hHI
  have hb1 : wd.outer.tl.1 ≤ wd.outer.br.1 := by omega
  have hb2 : wd.outer.tl.2 ≤ wd.outer.br.2 := by omega
  have hb3 : wd.inner.tl.1 ≤ wd.inner.br.1 := by omega
  have hb4 : wd.inner.tl.2 ≤ wd.inner.br.2 := by omega
  have hb5 : wd.outer.tl.1 ≤ wd.inner.tl.1 := by omega
  have hb6 : wd.outer.tl.2 ≤ wd.inner.tl.2 := by omega
  have hb7 : wd.inner.br.1 ≤ wd.outer.br.1 := by omega
  have hb8 : wd.inner.br.2 ≤ wd.outer.br.2 := by omega
  zify [hWI, hHI, hprod, hb1, hb2, hb3, hb4, hb5, hb6, hb7, hb8]
  ring

/-- Witness for `c5_gradient_extent` at the repository's own test window
(outer `[[0,0],[10,10]]`, inner `[[2,2],[6,6]]`, 84 points). -/
theorem c5_gradient_extent_witness :
    ((2 : Nat) < 6 ∧ (2 : Nat) < 6 ∧
      Rectangle.contains ⟨(0, 0), (10, 10)⟩ ⟨(2, 2), (6, 6)⟩ = true) ∧
    (RectangleInRectangleWindow.gradient ⟨⟨(0, 0), (10, 10)⟩, ⟨(2, 2), (6, 6)⟩⟩
        = gradSpec ⟨⟨(0, 0), (10, 10)⟩, ⟨(2, 2), (6, 6)⟩⟩ ∧
      (RectangleInRectangleWindow.gradient
        ⟨⟨(0, 0), (10, 10)⟩, ⟨(2, 2), (6, 6)⟩⟩).length = 84) := by
  have h := c5_gradient_extent ⟨⟨(0, 0), (10, 10)⟩, ⟨(2, 2), (6, 6)⟩⟩
    (by decide) (by decide) (by decide)
  exact ⟨⟨by decide, by decide, by decide⟩, h.1, h.2⟩

/-! ## Claims C6 and C9: what hysteresis writes -/

/-- Preservation invariant for the hysteresis mutation: every pixel is either
untouched or holds the line colour and has been recorded as painted; pixels
whose original red channel already equals the line colour's red channel are
untouched; and every painted point had an original red channel different from
the line colour's. -/
def presInv (img0 : Image) (colour : Pixel) (img : Image)
    (acc : List Point) : Prop :=
  (∀ u v, (img u v = img0 u v ∨ (img u v = colour ∧ (u, v) ∈ acc)) ∧
    ((img0 u v).r = colour.r → img u v = img0 u v)) ∧
  (∀ q ∈ acc, (img0 q.1 q.2).r ≠ colour.r)

theorem presInv_init (img0 : Image) (colour : Pixel) :
    presInv img0 colour img0 [] :=
  ⟨fun _ _ => ⟨Or.inl rfl, fun _ => rfl⟩, fun q hq => absurd hq
    (List.not_mem_nil q)⟩

theorem presInv_upd (img0 : Image) (colour : Pixel) (img : Image)
    (acc : List Point) (x y : Nat) (h : presInv img0 colour img acc)
    (hw : (img x y).r ≠ colour.r) :
    presInv img0 colour (updImg img x y colour) (acc ++ [(x, y)]) := by
  obtain ⟨hpix, hacc⟩ := h
  have horig : (img0 x y).r ≠ colour.r := by
    intro heq
    exact hw (by rw [(hpix x y).2 heq]; exact heq)
  refine ⟨fun u v => ?_, fun q hq => ?_⟩
  · by_cases huv : u = x ∧ v = y
    · obtain ⟨rfl, rfl⟩ := huv
      refine ⟨Or.inr ⟨?_, List.mem_append.mpr (Or.inr (List.mem_singleton.mpr
        rfl))⟩, fun hred => absurd hred horig⟩
      rw [updImg, if_pos ⟨rfl, rfl⟩]
    · rw [updImg, if_neg huv]
      rcases hpix u v with ⟨h1, h2⟩
      refine ⟨?_, h2⟩
      rcases h1 with ha | ⟨hb, hm⟩
      · exact Or.inl ha
      · exact Or.inr ⟨hb, List.mem_append.mpr (Or.inl hm)⟩
  · rcases List.mem_append.mp hq with hq1 | hq2
    · exact hacc q hq1
    · rw [List.mem_singleton] at hq2
      subst hq2
      exact horig

theorem visitNbrs_presInv (width : Nat) (input : Nat → ℚ) (low2 : ℚ)
    (colour : Pixel) (img0 : Image) :
    ∀ (cands : List Point) (img : Image) (stack acc : List Point),
      presInv img0 colour img acc →
      presInv img0 colour
        (visitNbrs width input low2 colour cands img stack acc).1
        (visitNbrs width input low2 colour cands img stack acc).2.2 := by
  intro cands
  induction cands with
  | nil => intro img stack acc h; exact h
  | cons c cs ih =>
    intro img stack acc h
    rw [visitNbrs]
    by_cases hc : low2 ≤ input (c.2 * width + c.1) ∧
        (img c.1 c.2).r ≠ colour.r
    · rw [if_pos hc]
      exact ih (updImg img c.1 c.2 colour) (c :: stack) (acc ++ [c])
        (presInv_upd img0 colour img acc c.1 c.2 h hc.2)
    · rw [if_neg hc]
      exact ih img stack acc h

theorem floodFill_presInv (width : Nat) (input : Nat → ℚ) (low2 : ℚ)
    (colour : Pixel) (img0 : Image) :
    ∀ (fuel : Nat) (img : Image) (stack acc : List Point),
      presInv img0 colour img acc →
      presInv img0 colour
        (floodFill width input low2 colour fuel img stack acc).1
        (floodFill width input low2 colour fuel img stack acc).2 := by
  intro fuel
  induction fuel with
  | zero => intro img stack acc h; exact h
  | succ fuel ih =>
    intro img stack acc h
    cases stack with
    | nil => exact h
    | cons c cs =>
      rw [floodFill]
      exact ih _ _ _ (visitNbrs_presInv width input low2 colour img0
        (hystNeighbors c.1 c.2) img cs acc h)

theorem hystLoop_presInv (width height : Nat) (input : Nat → ℚ)
    (low2 high2 : ℚ) (colour : Pixel) (img0 : Image) :
    ∀ (pts : List Point) (img : Image) (acc : List Point),
      presInv img0 colour img acc →
      presInv img0 colour
        (hystLoop width height input low2 high2 colour pts img acc).1
        (hystLoop width height input low2 high2 colour pts img acc).2 := by
  intro pts
  induction pts with
  | nil => intro img acc h; exact h
  | cons p ps ih =>
    intro img acc h
    rw [hystLoop]
    by_cases hp : high2 ≤ input (p.2 * width + p.1) ∧
        (img p.1 p.2).r ≠ colour.r
    · rw [if_pos hp]
      exact ih _ _ (floodFill_presInv width input low2 colour img0 _
        (updImg img p.1 p.2 colour) [p] (acc ++ [p])
        (presInv_upd img0 colour img acc p.1 p.2 h hp.2))
    · rw [if_neg hp]
      exact ih img acc h

theorem cannyRun_presInv {W : Type} [CWindow W] (c : Canny W) (src : Image)
    (pts : List Point) :
    presInv src c.line_colour (cannyRun c src pts).image
      (cannyRun c src pts).painted :=
  hystLoop_presInv c.width c.height _ _ _ c.line_colour src pts src []
    (presInv_init src c.line_colour)

/-- C6: `Canny::detect` mutates the frame only by overwriting painted (edge)
pixels with the line colour: a pixel that changed was painted and holds the
line colour, and every pixel already holding the line colour keeps its value,
so a second call leaves previously drawn edge pixels in place and calls
accumulate rather than resetting anything. -/
theorem c6_detect_mutates_only_edges {W : Type} [CWindow W] (c : Canny W)
    (img : Image) (res : CannyOutcome W)
    (hdet : c.detect img = Except.ok res) :
    ∀ u v, (res.image u v = img u v ∨
        (res.image u v = c.line_colour ∧ (u, v) ∈ res.painted)) ∧
      (img u v = c.line_colour → res.image u v = img u v) := by
  obtain ⟨pts, hproc, rfl⟩ := Canny.detect_inv c img res hdet
  intro u v
  have hp := (cannyRun_presInv c img pts).1 u v
  refine ⟨hp.1, fun hcol => ?_⟩
  rcases hp.1 with h | ⟨h, _⟩
  · exact h
  · rw [h, hcol]

/-! ## A Canny run on a frame of constant zero luminance is a no-op -/

theorem roundF32_zero : roundF32 0 = 0 := by decide

theorem int2f32_zero : int2f32 0 = 0 := by decide

theorem kernelAt_zero (width height x y : Nat) (gray : Nat → Nat → Nat)
    (hg : ∀ a b, gray a b = 0) :
    kernelAt width height gray x y = (0, 0) := by
  rw [kernelAt]
  simp [show List.range 3 = [0, 1, 2] from rfl, accumulate, hg]

theorem updF_keep_zero {α : Type} [Zero α] (f : Nat → α) (i : Nat) (v : α)
    (hf : ∀ j, f j = 0) (hv : v = 0) : ∀ j, updF f i v j = 0 := by
  intro j
  rw [updF]
  split_ifs with h
  · exact hv
  · exact hf j

theorem gradientPass_zero (width height : Nat) (gray : Nat → Nat → Nat)
    (hg : ∀ a b, gray a b = 0) :
    ∀ (pts : List Point) (gx0 gy0 : Nat → Int) (f0 : Nat → ℚ),
      (∀ i, gx0 i = 0) → (∀ i, gy0 i = 0) → (∀ i, f0 i = 0) →
      (∀ i, (gradientPass width height gray pts gx0 gy0 f0).1 i = 0) ∧
      (∀ i, (gradientPass width height gray pts gx0 gy0 f0).2.1 i = 0) ∧
      (∀ i, (gradientPass width height gray pts gx0 gy0 f0).2.2 i = 0) := by
  intro pts
  induction pts with
  | nil => intro gx0 gy0 f0 h1 h2 h3; exact ⟨h1, h2, h3⟩
  | cons p ps ih =>
    intro gx0 gy0 f0 h1 h2 h3
    rw [gradientPass, kernelAt_zero width height p.1 p.2 gray hg]
    exact ih _ _ _
      (updF_keep_zero gx0 _ _ h1 (by decide))
      (updF_keep_zero gy0 _ _ h2 (by decide))
      (updF_keep_zero f0 _ _ h3 (by decide))

theorem nmsCmp_zero (width : Nat) (g : Nat → ℚ) (xg yg : ℚ) (x y : Nat)
    (hg : ∀ i, g i = 0) : nmsCmp width g xg yg x y = (0, 0) := by
  rw [nmsCmp]
  split_ifs <;> rw [hg, hg]

theorem nmsPass_zero (width : Nat) (g : Nat → ℚ) (gxb gyb : Nat → Int)
    (hg : ∀ i, g i = 0) :
    ∀ (pts : List Point) (out0 : Nat → ℚ), (∀ i, out0 i = 0) →
      ∀ i, nmsPass width g gxb gyb pts out0 i = 0 := by
  intro pts
  induction pts with
  | nil => intro out0 h0; exact h0
  | cons p ps ih =>
    intro out0 h0
    rw [nmsPass, nmsCmp_zero width g _ _ p.1 p.2 hg]
    apply ih
    apply updF_keep_zero _ _ _ h0
    rw [hg]
    split_ifs <;> rfl

theorem hystLoop_noop_high (width height : Nat) (input : Nat → ℚ)
    (low2 high2 : ℚ) (colour : Pixel) (hin : ∀ i, input i = 0)
    (hhi : 0 < high2) :
    ∀ (pts : List Point) (img : Image) (acc : List Point),
      hystLoop width height input low2 high2 colour pts img acc =
        (img, acc) := by
  intro pts
  induction pts with
  | nil => intro img acc; rfl
  | cons p ps ih =>
    intro img acc
    rw [hystLoop, if_neg, ih]
    intro hp
    rw [hin] at hp
    exact absurd hp.1 (not_le.mpr hhi)

theorem hystLoop_noop_red (width height : Nat) (input : Nat → ℚ)
    (low2 high2 : ℚ) (colour : Pixel) :
    ∀ (pts : List Point) (img : Image) (acc : List Point),
      (∀ u v, (img u v).r = colour.r) →
      hystLoop width height input low2 high2 colour pts img acc =
        (img, acc) := by
  intro pts
  induction pts with
  | nil => intro img acc _; rfl
  | cons p ps ih =>
    intro img acc hred
    rw [hystLoop, if_neg, ih img acc hred]
    intro hp
    exact hp.2 (hred p.1 p.2)

/-- A `Canny::detect` call on a frame of constant zero luminance (with fresh
zero buffers) leaves the frame, the buffers, and the painted list untouched,
provided either the squared high threshold is positive (no seed passes) or
every pixel's red channel already equals the line colour's (every seed is
rejected by the already-marked check). -/
theorem cannyRun_const {W : Type} [CWindow W] (c : Canny W) (img : Image)
    (pts : List Point)
    (hgray : ∀ x y, luma (img x y) = 0)
    (hgx : ∀ i, c.gx i = 0) (hgy : ∀ i, c.gy i = 0)
    (hf : ∀ i, c.filtered i = 0) (hs : ∀ i, c.supressed i = 0)
    (hstop : 0 < f32mul c.high_threshold c.high_threshold ∨
      ∀ u v, (img u v).r = c.line_colour.r) :
    cannyRun c img pts = ⟨c, img, []⟩ := by
  have hb := gradientPass_zero c.width c.height (toGray img)
    (fun a b => hgray a b) (CWindow.gradientPts c.window) c.gx c.gy
    c.filtered hgx hgy hf
  have hsupp := nmsPass_zero c.width
    (gradientPass c.width c.height (toGray img) (CWindow.gradientPts c.window)
      c.gx c.gy c.filtered).2.2
    (gradientPass c.width c.height (toGray img) (CWindow.gradientPts c.window)
      c.gx c.gy c.filtered).1
    (gradientPass c.width c.height (toGray img) (CWindow.gradientPts c.window)
      c.gx c.gy c.filtered).2.1
    hb.2.2 pts c.supressed hs
  have himg : hysteresisPass c.width c.height
      (nmsPass c.width (gradientPass c.width c.height (toGray img)
        (CWindow.gradientPts c.window) c.gx c.gy c.filtered).2.2
        (gradientPass c.width c.height (toGray img)
        (CWindow.gradientPts c.window) c.gx c.gy c.filtered).1
        (gradientPass c.width c.height (toGray img)
        (CWindow.gradientPts c.window) c.gx c.gy c.filtered).2.1 pts
        c.supressed) img
      (f32mul c.low_threshold c.low_threshold)
      (f32mul c.high_threshold c.high_threshold) c.line_colour pts =
      (img, []) := by
    rw [hysteresisPass]
    rcases hstop with hhi | hred
    · exact hystLoop_noop_high c.width c.height _ _ _ c.line_colour hsupp
        hhi pts img []
    · exact hystLoop_noop_red c.width c.height _ _ _ c.line_colour pts img []
        hred
  have e1 : (gradientPass c.width c.height (toGray img)
      (CWindow.gradientPts c.window) c.gx c.gy c.filtered).1 = c.gx :=
    funext fun i => (hb.1 i).trans (hgx i).symm
  have e2 : (gradientPass c.width c.height (toGray img)
      (CWindow.gradientPts c.window) c.gx c.gy c.filtered).2.1 = c.gy :=
    funext fun i => (hb.2.1 i).trans (hgy i).symm
  have e3 : (gradientPass c.width c.height (toGray img)
      (CWindow.gradientPts c.window) c.gx c.gy c.filtered).2.2 = c.filtered :=
    funext fun i => (hb.2.2 i).trans (hf i).symm
  have e4 : nmsPass c.width c.filtered c.gx c.gy pts c.supressed =
      c.supressed :=
    funext fun i => (nmsPass_zero c.width c.filtered c.gx c.gy hf pts
      c.supressed hs i).trans (hs i).symm
  simp only [cannyRun]
  rw [himg, e1, e2, e3, e4]

theorem luma_rgb0 (p : Pixel) (h1 : p.r = 0) (h2 : p.g = 0) (h3 : p.b = 0) :
    luma p = 0 := by
  rw [luma, h1, h2, h3]

/-- An all-black, fully opaque frame. -/
def blankImage : Image := fun _ _ => ⟨0, 0, 0, 255⟩

/-- `EDGE_COLOUR`-marking Canny engine on a 5×5 frame with a full-rectangle
window and zero thresholds, used as a concrete witness instance. -/
def canny5 : Canny RectangleWindow :=
  Canny.new RectangleWindow 5 5 0 0 edgeColour ⟨⟨(0, 0), (4, 4)⟩⟩

theorem canny5_proc :
    CWindow.processPts canny5.window =
      Except.ok [(1, 1), (2, 1), (1, 2), (2, 2)] := by rfl

theorem blankImage_luma : ∀ x y, luma (blankImage x y) = 0 :=
  fun _ _ => luma_rgb0 _ rfl rfl rfl

theorem canny5_detect_blank :
    canny5.detect blankImage =
      Except.ok ⟨canny5, blankImage, []⟩ := by
  rw [Canny.detect_eq canny5 blankImage [(1, 1), (2, 1), (1, 2), (2, 2)]
    canny5_proc]
  rw [cannyRun_const canny5 blankImage _ blankImage_luma
    (fun _ => rfl) (fun _ => rfl) (fun _ => rfl) (fun _ => rfl)
    (Or.inr (fun _ _ => rfl))]

/-- Witness for `c6_detect_mutates_only_edges` at a concrete instance,
instantiated at pixel `(2, 2)`. -/
theorem c6_detect_mutates_only_edges_witness :
    canny5.detect blankImage = Except.ok ⟨canny5, blankImage, []⟩ ∧
    (((⟨canny5, blankImage, []⟩ : CannyOutcome RectangleWindow).image 2 2
          = blankImage 2 2 ∨
        ((⟨canny5, blankImage, []⟩ : CannyOutcome RectangleWindow).image 2 2 =
            canny5.line_colour ∧
          ((2, 2) : Point) ∈ (⟨canny5, blankImage, []⟩ :
            CannyOutcome RectangleWindow).painted)) ∧
      (blankImage 2 2 = canny5.line_colour →
        (⟨canny5, blankImage, []⟩ : CannyOutcome RectangleWindow).image 2 2 =
          blankImage 2 2)) :=
  ⟨canny5_detect_blank,
    c6_detect_mutates_only_edges canny5 blankImage ⟨canny5, blankImage, []⟩
      canny5_detect_blank 2 2⟩

/-- C9: hysteresis decides whether a pixel is already marked by comparing
only the red channel of the frame pixel with the red channel of the edge
colour: a process-extent point whose suppressed magnitude reaches the squared
high threshold but whose red channel already equals the edge colour's red
channel is neither overwritten nor used to seed or extend the flood fill
(it is never painted), regardless of its other channels. -/
theorem c9_red_channel_skip {W : Type} [CWindow W] (c : Canny W) (img : Image)
    (pts : List Point) (res : CannyOutcome W) (p : Point)
    (hproc : CWindow.processPts c.window = Except.ok pts)
    (hdet : c.detect img = Except.ok res)
    (hmem : p ∈ pts)
    (hhigh : f32mul c.high_threshold c.high_threshold ≤
      res.canny.supressed (p.2 * c.width + p.1))
    (hred : (img p.1 p.2).r = c.line_colour.r) :
    res.image p.1 p.2 = img p.1 p.2 ∧ p ∉ res.painted := by
  obtain ⟨pts', hproc', rfl⟩ := Canny.detect_inv c img res hdet
  have hinv := cannyRun_presInv c img pts'
  exact ⟨(hinv.1 p.1 p.2).2 hred, fun hp => hinv.2 p hp hred⟩

/-- Witness for `c9_red_channel_skip` at a concrete instance. -/
theorem c9_red_channel_skip_witness :
    (CWindow.processPts canny5.window =
        Except.ok [(1, 1), (2, 1), (1, 2), (2, 2)] ∧
      canny5.detect blankImage = Except.ok ⟨canny5, blankImage, []⟩ ∧
      ((1, 1) : Point) ∈ ([(1, 1), (2, 1), (1, 2), (2, 2)] : List Point) ∧
      f32mul canny5.high_threshold canny5.high_threshold ≤
        (⟨canny5, blankImage, []⟩ : CannyOutcome RectangleWindow).canny.supressed
          (1 * canny5.width + 1) ∧
      (blankImage 1 1).r = canny5.line_colour.r) ∧
    ((⟨canny5, blankImage, []⟩ : CannyOutcome RectangleWindow).image 1 1 =
        blankImage 1 1 ∧
      ((1, 1) : Point) ∉ (⟨canny5, blankImage, []⟩ :
        CannyOutcome RectangleWindow).painted) :=
  ⟨⟨canny5_proc, canny5_detect_blank, by decide, by decide, rfl⟩,
    c9_red_channel_skip canny5 blankImage [(1, 1), (2, 1), (1, 2), (2, 2)]
      ⟨canny5, blankImage, []⟩ (1, 1) canny5_proc canny5_detect_blank
      (by decide) (by decide) rfl⟩

/-! ## Claim C8: the flood fill cannot escape the process extent -/

theorem flatIdx_inj (width x1 y1 x2 y2 : Nat) (h1 : x1 < width)
    (h2 : x2 < width) (h : y1 * width + x1 = y2 * width + x2) :
    x1 = x2 ∧ y1 = y2 := by
  have hw : 0 < width := by omega
  have e1 : (y1 * width + x1) % width = x1 := by
    rw [Nat.mul_comm, Nat.mul_add_mod, Nat.mod_eq_of_lt h1]
  have e2 : (y2 * width + x2) % width = x2 := by
    rw [Nat.mul_comm, Nat.mul_add_mod, Nat.mod_eq_of_lt h2]
  have e3 : (y1 * width + x1) / width = y1 := by
    rw [Nat.mul_comm, Nat.mul_add_div hw, Nat.div_eq_of_lt h1, Nat.add_zero]
  have e4 : (y2 * width + x2) / width = y2 := by
    rw [Nat.mul_comm, Nat.mul_add_div hw, Nat.div_eq_of_lt h2, Nat.add_zero]
  constructor
  · rw [← e1, ← e2, h]
  · rw [← e3, ← e4, h]

theorem neighbor_accept_mem (width : Nat) (input : Nat → ℚ) (low2 : ℚ)
    (procL : List Point)
    (hsupp : ∀ i, input i ≠ 0 → ∃ q ∈ procL, i = q.2 * width + q.1)
    (hbnd : ∀ q ∈ procL, 1 ≤ q.1 ∧ q.1 + 1 < width ∧ 1 ≤ q.2)
    (hlow : 0 < low2) (nx ny : Nat) (hn : (nx, ny) ∈ procL)
    (c : Point) (hc : c ∈ hystNeighbors nx ny)
    (hacc : low2 ≤ input (c.2 * width + c.1)) : c ∈ procL := by
  obtain ⟨hnx1, hnx2, hny1⟩ := hbnd (nx, ny) hn
  have hne : input (c.2 * width + c.1) ≠ 0 := by
    intro h0
    rw [h0] at hacc
    exact absurd hacc (not_le.mpr hlow)
  obtain ⟨q, hq, hidx⟩ := hsupp _ hne
  have hq1 : q.1 < width := by
    have := (hbnd q hq).2.1
    omega
  have hcx : c.1 < width := by
    simp only [hystNeighbors, List.mem_cons, List.not_mem_nil, or_false]
      at hc
    rcases hc with rfl | rfl | rfl | rfl | rfl | rfl <;> (dsimp only; omega)
  obtain ⟨hx, hy⟩ := flatIdx_inj width q.1 q.2 c.1 c.2 hq1 hcx hidx.symm
  have : c = q := Prod.ext hx.symm hy.symm
  rw [this]
  exact hq

theorem visitNbrs_extent (width : Nat) (input : Nat → ℚ) (low2 : ℚ)
    (colour : Pixel) (procL : List Point) :
    ∀ (cands : List Point) (img : Image) (stack acc : List Point),
      (∀ cand ∈ cands, low2 ≤ input (cand.2 * width + cand.1) →
        cand ∈ procL) →
      (∀ q ∈ stack, q ∈ procL) → (∀ q ∈ acc, q ∈ procL) →
      (∀ q ∈ (visitNbrs width input low2 colour cands img stack acc).2.1,
        q ∈ procL) ∧
      (∀ q ∈ (visitNbrs width input low2 colour cands img stack acc).2.2,
        q ∈ procL) := by
  intro cands
  induction cands with
  | nil => intro img stack acc _ hstack hacc; exact ⟨hstack, hacc⟩
  | cons c cs ih =>
    intro img stack acc hcand hstack hacc
    rw [visitNbrs]
    by_cases hcnd : low2 ≤ input (c.2 * width + c.1) ∧
        (img c.1 c.2).r ≠ colour.r
    · rw [if_pos hcnd]
      have hcmem : c ∈ procL := hcand c (List.mem_cons_self c cs) hcnd.1
      refine ih _ _ _ (fun cand hcd => hcand cand (List.mem_cons_of_mem c hcd))
        (fun q hq => ?_) (fun q hq => ?_)
      · rcases List.mem_cons.mp hq with rfl | hq2
        · exact hcmem
        · exact hstack q hq2
      · rcases List.mem_append.mp hq with hq1 | hq2
        · exact hacc q hq1
        · rw [List.mem_singleton] at hq2
          rw [hq2]
          exact hcmem
    · rw [if_neg hcnd]
      exact ih _ _ _ (fun cand hcd => hcand cand (List.mem_cons_of_mem c hcd))
        hstack hacc

theorem floodFill_extent (width : Nat) (input : Nat → ℚ) (low2 : ℚ)
    (colour : Pixel) (procL : List Point)
    (hsupp : ∀ i, input i ≠ 0 → ∃ q ∈ procL, i = q.2 * width + q.1)
    (hbnd : ∀ q ∈ procL, 1 ≤ q.1 ∧ q.1 + 1 < width ∧ 1 ≤ q.2)
    (hlow : 0 < low2) :
    ∀ (fuel : Nat) (img : Image) (stack acc : List Point),
      (∀ q ∈ stack, q ∈ procL) → (∀ q ∈ acc, q ∈ procL) →
      ∀ q ∈ (floodFill width input low2 colour fuel img stack acc).2,
        q ∈ procL := by
  intro fuel
  induction fuel with
  | zero => intro img stack acc _ hacc; exact hacc
  | succ fuel ih =>
    intro img stack acc hstack hacc
    cases stack with
    | nil => exact hacc
    | cons c cs =>
      rw [floodFill]
      have hcmem : c ∈ procL := hstack c (List.mem_cons_self c cs)
      have hv := visitNbrs_extent width input low2 colour procL
        (hystNeighbors c.1 c.2) img cs acc
        (fun cand hcd hlc => neighbor_accept_mem width input low2 procL hsupp
          hbnd hlow c.1 c.2 (by rw [show (c.1, c.2) = c from rfl]; exact hcmem)
          cand hcd hlc)
        (fun q hq => hstack q (List.mem_cons_of_mem c hq)) hacc
      exact ih _ _ _ hv.1 hv.2

theorem hystLoop_extent (width height : Nat) (input : Nat → ℚ)
    (low2 high2 : ℚ) (colour : Pixel) (procL : List Point)
    (hsupp : ∀ i, input i ≠ 0 → ∃ q ∈ procL, i = q.2 * width + q.1)
    (hbnd : ∀ q ∈ procL, 1 ≤ q.1 ∧ q.1 + 1 < width ∧ 1 ≤ q.2)
    (hlow : 0 < low2) :
    ∀ (pts : List Point) (img : Image) (acc : List Point),
      (∀ p ∈ pts, p ∈ procL) → (∀ q ∈ acc, q ∈ procL) →
      ∀ q ∈ (hystLoop width height input low2 high2 colour pts img acc).2,
        q ∈ procL := by
  intro pts
  induction pts with
  | nil => intro img acc _ hacc; exact hacc
  | cons p ps ih =>
    intro img acc hpts hacc
    rw [hystLoop]
    have hpmem : p ∈ procL := hpts p (List.mem_cons_self p ps)
    by_cases hp : high2 ≤ input (p.2 * width + p.1) ∧
        (img p.1 p.2).r ≠ colour.r
    · rw [if_pos hp]
      refine ih _ _ (fun r hr => hpts r (List.mem_cons_of_mem p hr))
        (floodFill_extent width input low2 colour procL hsupp hbnd hlow _ _
          [p] (acc ++ [p]) (fun q hq => ?_) (fun q hq => ?_))
      · rw [List.mem_singleton] at hq
        rw [hq]
        exact hpmem
      · rcases List.mem_append.mp hq with hq1 | hq2
        · exact hacc q hq1
        · rw [List.mem_singleton] at hq2
          rw [hq2]
          exact hpmem
    · rw [if_neg hp]
      exact ih _ _ (fun r hr => hpts r (List.mem_cons_of_mem p hr)) hacc

theorem nmsPass_support (width : Nat) (g : Nat → ℚ) (gxb gyb : Nat → Int) :
    ∀ (pts : List Point) (out0 : Nat → ℚ) (i : Nat),
      nmsPass width g gxb gyb pts out0 i ≠ 0 →
      (∃ p ∈ pts, i = p.2 * width + p.1) ∨ out0 i ≠ 0 := by
  intro pts
  induction pts with
  | nil => intro out0 i h; exact Or.inr h
  | cons p ps ih =>
    intro out0 i h
    rw [nmsPass] at h
    rcases ih _ i h with hin | hupd
    · obtain ⟨q, hq, hi⟩ := hin
      exact Or.inl ⟨q, List.mem_cons_of_mem p hq, hi⟩
    · rw [updF] at hupd
      by_cases hi : i = p.2 * width + p.1
      · exact Or.inl ⟨p, List.mem_cons_self p ps, hi⟩
      · rw [if_neg hi] at hupd
        exact Or.inr hupd

/-- C8: with a strictly positive squared low threshold, every pixel a fresh
`Canny::detect` call paints lies within the window's process extent: the
suppressed buffer is zero-initialised at construction and written only at
process-extent indices, so neither a seed nor any accepted flood-fill
neighbour can lie outside the extent (the extent is assumed to sit inside the
frame with a one-pixel margin, as every window this program builds does). -/
theorem c8_painted_within_process_extent {W : Type} [CWindow W]
    (width height : Nat) (lo hi : ℚ) (colour : Pixel) (wd : W) (img : Image)
    (procL : List Point) (res : CannyOutcome W)
    (hproc : CWindow.processPts wd = Except.ok procL)
    (hbnd : ∀ q ∈ procL, 1 ≤ q.1 ∧ q.1 + 1 < width ∧ 1 ≤ q.2)
    (hlow : 0 < f32mul lo lo)
    (hdet : (Canny.new W width height lo hi colour wd).detect img =
      Except.ok res) :
    ∀ p ∈ res.painted, p ∈ procL := by
  obtain ⟨pts', hproc', rfl⟩ :=
    Canny.detect_inv (Canny.new W width height lo hi colour wd) img res hdet
  have hpts : pts' = procL := by
    rw [show CWindow.processPts (Canny.new W width height lo hi colour
      wd).window = CWindow.processPts wd from rfl, hproc] at hproc'
    exact (Except.ok.injEq _ _).mp hproc'.symm
  rw [hpts]
  intro p hp
  refine hystLoop_extent width height _ _ _ colour procL ?_ hbnd hlow procL
    img [] (fun r hr => hr) (fun q hq => absurd hq (List.not_mem_nil q)) p hp
  intro i hne
  rcases nmsPass_support width _ _ _ procL (fun _ => 0) i hne with h | h
  · exact h
  · exact absurd rfl h

/-- A 5×5 Canny engine with the default thresholds, for the C8 witness. -/
def canny5b : Canny RectangleWindow :=
  Canny.new RectangleWindow 5 5 150 200 edgeColour ⟨⟨(0, 0), (4, 4)⟩⟩

theorem canny5b_detect_blank :
    (Canny.new RectangleWindow 5 5 150 200 edgeColour
      ⟨⟨(0, 0), (4, 4)⟩⟩).detect blankImage =
      Except.ok ⟨canny5b, blankImage, []⟩ := by
  show canny5b.detect blankImage = _
  rw [Canny.detect_eq canny5b blankImage [(1, 1), (2, 1), (1, 2), (2, 2)]
    (by rfl)]
  rw [cannyRun_const canny5b blankImage _ blankImage_luma
    (fun _ => rfl) (fun _ => rfl) (fun _ => rfl) (fun _ => rfl)
    (Or.inl (by decide))]

/-- Witness for `c8_painted_within_process_extent` at a concrete instance. -/
theorem c8_painted_within_process_extent_witness :
    (CWindow.processPts
        ((⟨⟨(0, 0), (4, 4)⟩⟩ : RectangleWindow)) =
        Except.ok [(1, 1), (2, 1), (1, 2), (2, 2)] ∧
      (∀ q ∈ ([(1, 1), (2, 1), (1, 2), (2, 2)] : List Point),
        1 ≤ q.1 ∧ q.1 + 1 < 5 ∧ 1 ≤ q.2) ∧
      0 < f32mul 150 150 ∧
      (Canny.new RectangleWindow 5 5 150 200 edgeColour
        ⟨⟨(0, 0), (4, 4)⟩⟩).detect blankImage =
        Except.ok ⟨canny5b, blankImage, []⟩) ∧
    (∀ p ∈ (⟨canny5b, blankImage, []⟩ :
        CannyOutcome RectangleWindow).painted,
      p ∈ ([(1, 1), (2, 1), (1, 2), (2, 2)] : List Point)) :=
  ⟨⟨by rfl, by decide, by decide, canny5b_detect_blank⟩,
    c8_painted_within_process_extent 5 5 150 200 edgeColour
      ⟨⟨(0, 0), (4, 4)⟩⟩ blankImage [(1, 1), (2, 1), (1, 2), (2, 2)]
      ⟨canny5b, blankImage, []⟩ (by rfl) (by decide) (by decide)
      canny5b_detect_blank⟩

/-! ## Claim C10: diagnostic-strip underflow -/

/-- C10: with the default `card_edge_width` of 3 and the 40×56 frame (whose
computed boundary margin is 2), `Detector::detect` fails on every input
image: the top diagnostic strip computes `2 - 3` on unsigned coordinates. -/
theorem c10_strip_underflow (img : Image) :
    (Detector.new 40 56 3 20 150 200).bind (fun d => d.detect img) =
      Except.error "attempt to subtract with overflow" := by
  rfl

/-! ## Claim C1: per-side scoring -/

/-- C1 (divergence witness): on an all-blank frame — no `EDGE_COLOUR` pixel
anywhere, so every perpendicular band of every side is empty — the four side
ratios computed by the 20×30 detector (card_edge_width 0, detection window 6)
are `[0, 0, 1, 1]`: the Left and Right vertical sides each score a full
`height` of hits because the miss arm of the vertical scorer is
`(MISS_COLOUR, true)`, not `(MISS_COLOUR, false)`; symmetric scoring would
give `[0, 0, 0, 0]`. -/
theorem c1_vertical_sides_always_hit :
    ((Detector.new 20 30 0 6 150 200).bind
        (fun d => scoreSides d blankImage)).map Prod.fst =
      Except.ok [0, 0, 1, 1] := by
  rfl

/-! ## Claim C2: 3-of-4 decision -/

/-- A 20×30 frame with zero-luminance edge-coloured pixels along the interior
of rows 0 and 28 only; every other pixel is opaque black. -/
def e2img : Image := fun x y =>
  if (y = 0 ∨ y = 28) ∧ 1 ≤ x ∧ x < 19 then edgeColour else ⟨0, 0, 0, 255⟩

/-- The 20×30 detector produced by
`Detector.new 20 30 0 6 150 200` (checked below by `rfl`). -/
def d20 : Detector :=
  { card_edge_width := 0
    canny := Canny.new RectangleInRectangleWindow 20 30 150 200 edgeColour
      ⟨⟨(0, 0), (19, 29)⟩, ⟨(4, 4), (16, 24)⟩⟩
    boundary := ⟨(1, 1), (19, 27)⟩
    inner_boundary := ⟨(4, 4), (16, 24)⟩
    outer_boundary := ⟨(0, 0), (19, 29)⟩ }

/-- C2 (divergence witness): `e2img` has no `EDGE_COLOUR` pixel in any row
`1..=26`, so the Left and Right bands (which scan columns at those rows) are
empty — two of the four sides see no edge pixel — yet the 20×30 detector
(card_edge_width 0, detection window 6) returns `true`, because the vertical
scorer counts every sample as a hit.  The claim requires `false` here. -/
theorem c2_detect_true_with_empty_vertical_bands :
    (∀ x < 20, ∀ y < 27, 1 ≤ y → e2img x y ≠ edgeColour) ∧
    ((Detector.new 20 30 0 6 150 200).bind
        (fun d => d.detect e2img)).map Prod.fst = Except.ok true := by
  constructor
  · decide
  · have hluma : ∀ x y, luma (e2img x y) = 0 := by
      intro x y
      unfold e2img
      split <;> rfl
    obtain ⟨pts, hp⟩ :
        ∃ pts, CWindow.processPts d20.canny.window = Except.ok pts := ⟨_, rfl⟩
    have hdet : d20.canny.detect e2img = Except.ok ⟨d20.canny, e2img, []⟩ := by
      rw [Canny.detect_eq d20.canny e2img pts hp,
        cannyRun_const d20.canny e2img pts hluma (fun _ => rfl) (fun _ => rfl)
          (fun _ => rfl) (fun _ => rfl) (Or.inl (by decide))]
    have hnew : Detector.new 20 30 0 6 150 200 = Except.ok d20 := by rfl
    rw [hnew]
    show (d20.detect e2img).map Prod.fst = Except.ok true
    rw [Detector.detect, hdet]
    rfl

/-! ## Claim C3: non-maximum suppression neighbours -/

/-- Modelled from the SPEC's words, not from the source: in the vertical-edge
band the two compared values are the magnitudes at `(x, y - 1)` and
`(x, y + 1)`, i.e. the second read is `g[(y + 1) * width + x]`.  Identical to
`nmsCmp` in every other arm. -/
def nmsCmpSpec (width : Nat) (g : Nat → ℚ) (xg yg : ℚ) (x y : Nat) : ℚ × ℚ :=
  let angle0 := f32mul (atan2Approx yg xg) rad2deg
  let angle := if angle0 < 0 then f32add angle0 180 else angle0
  if mkRat 315 2 ≤ angle ∨ angle < mkRat 45 2 then
    (g (y * width + x - 1), g (y * width + x + 1))
  else if mkRat 45 2 ≤ angle ∧ angle < mkRat 135 2 then
    (g ((y + 1) * width + x + 1), g ((y - 1) * width + x - 1))
  else if mkRat 135 2 ≤ angle ∧ angle < mkRat 225 2 then
    (g ((y - 1) * width + x), g ((y + 1) * width + x))
  else
    (g ((y + 1) * width + x - 1), g ((y - 1) * width + x + 1))

/-- The suppression pass with the spec-modelled comparison, for contrast with
`nmsPass`. -/
def nmsPassSpec (width : Nat) (g : Nat → ℚ) (gxb gyb : Nat → Int) :
    List Point → (Nat → ℚ) → (Nat → ℚ)
  | [], out => out
  | p :: ps, out =>
    nmsPassSpec width g gxb gyb ps
      (updF out (p.2 * width + p.1)
        (if g (p.2 * width + p.1) <
            (nmsCmpSpec width g (int2f32 (gxb (p.2 * width + p.1)))
              (int2f32 (gyb (p.2 * width + p.1))) p.1 p.2).1 ∨
            g (p.2 * width + p.1) <
            (nmsCmpSpec width g (int2f32 (gxb (p.2 * width + p.1)))
              (int2f32 (gyb (p.2 * width + p.1))) p.1 p.2).2
         then 0 else g (p.2 * width + p.1)))

/-- A 5-wide magnitude buffer: 100 at flat index 5 (= point (0,1)), 50 at
flat index 12 (= point (2,2)), 0 elsewhere. -/
def gC3 : Nat → ℚ := fun i => if i = 5 then 100 else if i = 12 then 50 else 0

/-- C3 (divergence witness): for gradient `(gx, gy) = (0, 1)` the bucketed
angle lies in the vertical-edge band `[67.5, 112.5)`, and at point `(2, 2)` of
a 5-wide buffer the source's suppression zeroes the magnitude 50 — its second
read is `g[(y + 1) + x] = g[5] = 100` because the `* width` factor is missing
— while the spec-described comparison against `g[(y - 1) * width + x] = 0` and
`g[(y + 1) * width + x] = 0` keeps it at 50. -/
theorem c3_nms_vertical_band_wrong_read :
    (mkRat 135 2 ≤ f32mul (atan2Approx (int2f32 1) (int2f32 0)) rad2deg ∧
      f32mul (atan2Approx (int2f32 1) (int2f32 0)) rad2deg < mkRat 225 2) ∧
    nmsPass 5 gC3 (fun _ => 0) (fun _ => 1) [(2, 2)] (fun _ => 0) 12 = 0 ∧
    nmsPassSpec 5 gC3 (fun _ => 0) (fun _ => 1) [(2, 2)] (fun _ => 0) 12 =
      50 := by
  refine ⟨⟨by decide, by decide⟩, by decide, by decide⟩
